import Mathlib

/-!
The `@Log()` rewriter of golang-log-annotation.

A shallow embedding of the package `logannotation` (`annotation.go`, `common.go`,
`log.go`, `util.go`).  Go strings are Lean strings handled through their character
lists; a Go slice that is `nil` is the empty list; a pointer that may be `nil` is an
`Option`; in-place mutation of the syntax tree is explicit state passing; a run-time
panic is a `Fault`.

The collaborators that live outside the package (`go/parser.ParseExpr`, the
printability tables behind `strconv.Quote`, the struct dump of `fmt`) are fields of
`Env`.
-/

set_option autoImplicit false

namespace LogAnnot

/-! ## Go strings -/

/-- Go's `strings.Trim(s, cutset)`: drop the leading and the trailing characters that
occur in `cutset`. -/
def stringsTrim (s cutset : String) : String :=
  ⟨((s.data.dropWhile (fun c => cutset.data.contains c)).reverse.dropWhile
      (fun c => cutset.data.contains c)).reverse⟩

/-- Go's `strings.Repeat(s, count)`. -/
def stringsRepeat (s : String) (count : Nat) : String :=
  ⟨(List.replicate count s.data).flatten⟩

/-- The slice expression `s[k:]`. -/
def sliceFrom (s : String) (k : Nat) : String :=
  ⟨s.data.drop k⟩

/-- Go's `strings.Split(s, "\n")` on a character list: the pieces between newlines. -/
def splitLines : List Char → List (List Char)
  | [] => [[]]
  | c :: cs =>
    if c = '\n' then [] :: splitLines cs
    else
      match splitLines cs with
      | [] => [[c]]
      | l :: ls => (c :: l) :: ls

/-- Go's `strings.Join(lines, "\n")`. -/
def joinLines : List (List Char) → List Char
  | [] => []
  | [l] => l
  | l :: ls => l ++ '\n' :: joinLines ls

/-! ## `strconv.Quote` -/

/-- The lower-case hexadecimal digit of `n % 16`. -/
def hexDigit (n : Nat) : Char :=
  "0123456789abcdef".data.getD (n % 16) '0'

/-- The `width` lower-case hexadecimal digits of `n`, most significant first. -/
def hexDigits : Nat → Nat → List Char
  | 0, _ => []
  | width + 1, n => hexDigits width (n / 16) ++ [hexDigit n]

/-- Go's `strconv.IsPrint`: decided here for Latin-1, by the Unicode tables
(`table`) above it. -/
def isPrintRune (table : Char → Bool) (r : Char) : Bool :=
  if r.toNat ≤ 0xFF then
    (0x20 ≤ r.toNat && r.toNat ≤ 0x7E) || (0xA1 ≤ r.toNat && r.toNat ≤ 0xFF && r.toNat != 0xAD)
  else table r

/-- One rune of `strconv.Quote`: the quote and the backslash are escaped, a
printable rune stands for itself, anything else is written as an escape. -/
def quoteRune (table : Char → Bool) (r : Char) : List Char :=
  if r = '"' ∨ r = '\\' then ['\\', r]
  else if isPrintRune table r then [r]
  else if r.toNat = 7 then ['\\', 'a']
  else if r.toNat = 8 then ['\\', 'b']
  else if r.toNat = 12 then ['\\', 'f']
  else if r = '\n' then ['\\', 'n']
  else if r = '\r' then ['\\', 'r']
  else if r = '\t' then ['\\', 't']
  else if r.toNat = 11 then ['\\', 'v']
  else if r.toNat < 0x20 ∨ r.toNat = 0x7F then '\\' :: 'x' :: hexDigits 2 r.toNat
  else if r.toNat < 0x10000 then '\\' :: 'u' :: hexDigits 4 r.toNat
  else '\\' :: 'U' :: hexDigits 8 r.toNat

/-- Go's `strconv.Quote(s)`: a double-quoted Go string literal for `s`. -/
def strconvQuote (table : Char → Bool) (s : String) : String :=
  ⟨'"' :: (s.data.map (quoteRune table)).flatten ++ ['"']⟩

/-! ## The syntax tree (`go/ast`) -/

/-- An expression in type position: the type of a parameter, result or receiver. -/
inductive TypeExpr where
  | ident (name : String)
  | star (x : TypeExpr)
  | paren (x : TypeExpr)
  | raw (src : String)
  deriving DecidableEq, Repr

/-- The `ast.Ident`. -/
structure Ident where
  name : String
  deriving DecidableEq, Repr

/-- The `ast.Field` of a parameter, result or receiver list.  `names = []` is Go's
`Names == nil`, an anonymous field. -/
structure Field where
  names : List Ident
  type : TypeExpr
  deriving DecidableEq, Repr

/-- The `ast.FieldList`. -/
structure FieldList where
  list : List Field
  deriving DecidableEq, Repr

/-- The `ast.FuncType`; `none` is a `nil` field list. -/
structure FuncType where
  params : Option FieldList
  results : Option FieldList
  deriving DecidableEq, Repr

mutual
/-- The expressions the rewriter builds or carries: identifiers, calls, function
literals, and any other expression kept by its source text. -/
inductive Expr where
  | ident (name : String)
  | call (fn : Expr) (args : List Expr)
  | funcLit (type : FuncType) (body : List Stmt)
  | raw (src : String)
/-- The statements the rewriter builds or carries. -/
inductive Stmt where
  | exprStmt (x : Expr)
  | deferStmt (call : Expr)
  | raw (src : String)
end

/-- The `ast.BlockStmt`. -/
structure BlockStmt where
  list : List Stmt

/-- One `ast.Comment`: a `//` comment with the text after the marker, or a
`/* */` comment with the text between the markers. -/
inductive Comment where
  | line (text : String)
  | block (text : String)
  deriving DecidableEq, Repr

/-- The `ast.CommentGroup`. -/
structure CommentGroup where
  list : List Comment
  deriving DecidableEq, Repr

/-- The `ast.FuncDecl`.  `doc`, `recv` and `body` may be `nil`; the body is `nil`
for a declaration without a Go body. -/
structure FuncDecl where
  doc : Option CommentGroup
  recv : Option FieldList
  name : String
  type : FuncType
  body : Option BlockStmt

/-- The kinds of node, other than a function declaration, that a walk meets. -/
inductive NodeKind where
  | file | genDecl | commentGroup | comment | fieldList | field | ident
  | typeExpr | funcType | blockStmt | stmt
  deriving DecidableEq, Repr

/-- The `ast.Node` as `Handle` sees it: a function declaration, or a node of
another kind. -/
inductive Node where
  | funcDecl (d : FuncDecl)
  | other (kind : NodeKind)

/-! ## `CommentGroup.Text` (`go/ast`) -/

/-- The white space that `go/ast` strips from the end of a comment line. -/
def isWhitespace (ch : Char) : Bool :=
  ch = ' ' || ch = '\t' || ch = '\n' || ch = '\r'

/-- The `stripTrailingWhitespace` of `go/ast`. -/
def stripTrailingWhitespace (s : List Char) : List Char :=
  (s.reverse.dropWhile isWhitespace).reverse

/-- A byte of `[a-z0-9]`. -/
def isLowerAlnum (b : Char) : Bool :=
  ('a'.toNat ≤ b.toNat && b.toNat ≤ 'z'.toNat) || ('0'.toNat ≤ b.toNat && b.toNat ≤ '9'.toNat)

/-- The `isDirective` of `go/ast`: a `//line `, `//extern `, `//export ` comment, or
one of the shape `//[a-z0-9]+:[a-z0-9]`. -/
def isDirective (c : List Char) : Bool :=
  "line ".data.isPrefixOf c || "extern ".data.isPrefixOf c || "export ".data.isPrefixOf c ||
  (match c.span (fun b => b != ':') with
   | (pre, _ :: b :: _) => !pre.isEmpty && pre.all isLowerAlnum && isLowerAlnum b
   | _ => false)

/-- The lines one comment contributes to the text of its group: the comment marker
is removed, one leading space of a `//` comment is dropped, a directive contributes
nothing, and every line loses its trailing white space. -/
def commentLines : Comment → List (List Char)
  | .line text =>
    match text.data with
    | [] => [[]]
    | ' ' :: rest => (splitLines rest).map stripTrailingWhitespace
    | c :: rest =>
      if isDirective (c :: rest) then []
      else (splitLines (c :: rest)).map stripTrailingWhitespace
  | .block text => (splitLines text.data).map stripTrailingWhitespace

/-- The blank-line pass of `Text`: leading blank lines go, a run of interior blank
lines becomes one.  `kept` is the prefix `lines[0:n]` written so far. -/
def squeezeBlank (kept : List (List Char)) : List (List Char) → List (List Char)
  | [] => kept
  | line :: rest =>
    if line ≠ [] ∨ (kept ≠ [] ∧ kept.getLast? ≠ some []) then squeezeBlank (kept ++ [line]) rest
    else squeezeBlank kept rest

/-- The method `(*ast.CommentGroup).Text`: the text of the comment group, without
comment markers, ending in a newline unless it is empty. -/
def CommentGroup.Text (g : CommentGroup) : String :=
  let lines := squeezeBlank [] (g.list.map commentLines).flatten
  let lines := if lines ≠ [] ∧ lines.getLast? ≠ some [] then lines ++ [[]] else lines
  ⟨joinLines lines⟩

/-! ## The collaborators outside the package -/

/-- What the package takes from outside: `parser.ParseExpr` (an expression or the
parser's error), the Unicode printability tables of `strconv`, and the text `fmt`
prints under `%v` for a type expression that is not an identifier. -/
structure Env where
  parseExpr : String → Except String Expr
  printable : Char → Bool
  dump : TypeExpr → String

/-- A run-time panic of the Go program. -/
inductive Fault where
  | nilDereference
  | indexOutOfRange
  | handlerError (err : String)
  deriving DecidableEq, Repr

/-! ## `util.go` -/

/-- The function `NewIdents`: one identifier per name, in order. -/
def NewIdents (names : List String) : List Ident :=
  names.map Ident.mk

/-- The function `GetIdentNames`: the names of the identifiers, in order. -/
def GetIdentNames (idents : List Ident) : List String :=
  idents.map Ident.name

/-- The loop of `SetDefaultNames`, entered with the running counter `index`; gives
the fields after the loop and the final counter. -/
def setDefaultNamesLoop : Nat → List Field → List Field × Nat
  | index, [] => ([], index)
  | index, field :: fields =>
    if field.names = [] then
      let r := setDefaultNamesLoop (index + 1) fields
      ({ field with names := NewIdents ["_" ++ toString index] } :: r.1, r.2)
    else
      let r := setDefaultNamesLoop index fields
      (field :: r.1, r.2)

/-- The function `SetDefaultNames`: the fields with `_0, _1, ...` given to the
anonymous ones, and whether a name was set. -/
def SetDefaultNames (fields : List Field) : List Field × Bool :=
  let r := setDefaultNamesLoop 0 fields
  (r.1, decide (r.2 > 0))

/-- The function `GetFieldNames`: the names of all fields, in order. -/
def GetFieldNames (fields : List Field) : List String :=
  fields.foldl (fun names field => names ++ GetIdentNames field.names) []

/-- The function `NewCallExpr`: parse the selector, attach one identifier per
argument; the parser's error if the selector does not parse. -/
def NewCallExpr (env : Env) (funcSelector : String) (args : List String) :
    Except String Expr :=
  match env.parseExpr funcSelector with
  | .error err => .error err
  | .ok funcExpr => .ok (.call funcExpr (args.map Expr.ident))

/-- The function `NewFuncLit`. -/
def NewFuncLit (funcType : FuncType) (stmts : List Stmt) : Expr :=
  .funcLit funcType stmts

/-- The function `NewFuncLitDefer`: `defer func() { stmts }()`. -/
def NewFuncLitDefer (funcStmts : List Stmt) : Stmt :=
  .deferStmt (.call (NewFuncLit { params := none, results := none } funcStmts) [])

/-! ## `common.go` -/

/-- The type `Info`: the file path, the node being handled and the import adder.  The
adder is a callback with an effect on the file; `σ` is the state it acts on. -/
structure Info (σ : Type) where
  filepath : String
  node : Node
  namedImportAdder : String → String → σ → Bool × σ

/-! ## `log.go` -/

/-- The function `genLogArgs`: the quoted format string, then the arguments. -/
def genLogArgs (env : Env) (formatPrefix : String) (args : List String) : List String :=
  if args.length = 0 then
    [strconvQuote env.printable (formatPrefix ++ "(void)")]
  else
    let format := formatPrefix ++ sliceFrom (stringsRepeat ", %+v" args.length) 2
    strconvQuote env.printable format :: args

/-- The function `genBeforeLogArgs`. -/
def genBeforeLogArgs (env : Env) (funcDeclName : String) (args : List String) : List String :=
  genLogArgs env ("#" ++ funcDeclName ++ " start, params: ") args

/-- The function `genAfterLogArgs`. -/
def genAfterLogArgs (env : Env) (funcDeclName : String) (args : List String) : List String :=
  genLogArgs env ("#" ++ funcDeclName ++ " end, results: ") args

/-- The function `getFieldListNames`: the field list after `SetDefaultNames` and the
names `GetFieldNames` reads from it; a `nil` list stays `nil` and has no names. -/
def getFieldListNames (fieldList : Option FieldList) : Option FieldList × List String :=
  match fieldList with
  | none => (none, [])
  | some fl =>
    let fields := (SetDefaultNames fl.list).1
    (some { list := fields }, GetFieldNames fields)

/-- The function `astutil.Unparen`: the expression without enclosing parentheses. -/
def Unparen : TypeExpr → TypeExpr
  | .paren x => Unparen x
  | e => e

/-- What `%v` prints for a type expression: an identifier prints its name, any
other node is dumped by `fmt`. -/
def sprintTypeExpr (env : Env) : TypeExpr → String
  | .ident name => name
  | e => env.dump e

/-- The function `getFuncDeclName`: the name of a function, `Type.Name` for a
method.  Indexing an empty receiver list panics. -/
def getFuncDeclName (env : Env) (funcDecl : FuncDecl) : Except Fault String :=
  match funcDecl.recv with
  | none => .ok funcDecl.name
  | some recv =>
    match recv.list with
    | [] => .error .indexOutOfRange
    | field :: _ =>
      let recvType := Unparen field.type
      let recvType := match recvType with
        | .star x => x
        | e => e
      .ok (sprintTypeExpr env recvType ++ "." ++ funcDecl.name)

/-- What one call of `Handle` leaves behind: the node and the adder's state after the
call, and either the returned pair `(modified, err)` or the panic that ended it. -/
structure HandleResult (σ : Type) where
  node : Node
  world : σ
  ret : Except Fault (Bool × Option String)

/-- The method `handler.Handle`. -/
def Handle {σ : Type} (env : Env) (info : Info σ) (w : σ) : HandleResult σ :=
  match info.node with
  | .other _ => ⟨info.node, w, .ok (false, none)⟩
  | .funcDecl funcDecl =>
    match funcDecl.doc with
    | none => ⟨info.node, w, .ok (false, none)⟩
    | some group =>
      let doc := stringsTrim group.Text "\t \n"
      if doc ≠ "@Log()" then ⟨info.node, w, .ok (false, none)⟩
      else
        let funcDecl := { funcDecl with doc := some { group with list := [] } }
        let w := (info.namedImportAdder "" "logannotation/testdata/log" w).2
        let params := getFieldListNames funcDecl.type.params
        let funcDecl := { funcDecl with type := { funcDecl.type with params := params.1 } }
        let results := getFieldListNames funcDecl.type.results
        let funcDecl := { funcDecl with type := { funcDecl.type with results := results.1 } }
        let paramNames := params.2
        let resultNames := results.2
        let loggerSelector := "log.Logger"
        let bound := decide (paramNames ≠ [] ∧ paramNames.head? = some "ctx")
        let loggerSelector :=
          if bound then loggerSelector ++ ".WithContext(ctx)" else loggerSelector
        let paramNames := if bound then paramNames.drop 1 else paramNames
        let loggerSelector :=
          loggerSelector ++ (".WithField(\"filepath\", \"" ++ info.filepath ++ "\")")
        let loggerSelector := loggerSelector ++ ".Infof"
        match getFuncDeclName env funcDecl with
        | .error fault => ⟨.funcDecl funcDecl, w, .error fault⟩
        | .ok funcDeclName =>
          let beforeArgs := genBeforeLogArgs env funcDeclName paramNames
          match NewCallExpr env loggerSelector beforeArgs with
          | .error err => ⟨.funcDecl funcDecl, w, .ok (false, some err)⟩
          | .ok beforeExpr =>
            let afterArgs := genAfterLogArgs env funcDeclName resultNames
            match NewCallExpr env loggerSelector afterArgs with
            | .error err => ⟨.funcDecl funcDecl, w, .ok (false, some err)⟩
            | .ok afterExpr =>
              let toBeAddedStmts := [Stmt.exprStmt beforeExpr,
                NewFuncLitDefer [Stmt.exprStmt afterExpr]]
              match funcDecl.body with
              | none => ⟨.funcDecl funcDecl, w, .error .nilDereference⟩
              | some body =>
                ⟨.funcDecl { funcDecl with
                    body := some { body with list := toBeAddedStmts ++ body.list } },
                  w, .ok (true, none)⟩

/-! ## `annotation.go` -/

/-- A top-level declaration of a file: a function declaration, or a general
declaration (import, const, type, var) kept by its source text. -/
inductive Decl where
  | funcDecl (d : FuncDecl)
  | genDecl (src : String)

/-- One entry of the import table: the alias (empty for none) and the path. -/
structure ImportSpec where
  name : String
  path : String
  deriving DecidableEq, Repr

/-- The `ast.File`: the package name, the import table and the declarations other
than imports. -/
structure File where
  name : String
  imports : List ImportSpec
  decls : List Decl

/-- Modelled from the spec: `astutil.AddNamedImport` is a library function outside the
package.  The table of imports maps an alias and a path to "present"; an absent
entry is added, adding a present one changes nothing, and the result says whether
the entry was added. -/
def AddNamedImport (name path : String) (imports : List ImportSpec) :
    Bool × List ImportSpec :=
  if ImportSpec.mk name path ∈ imports then (false, imports)
  else (true, imports ++ [ImportSpec.mk name path])

/-- The nodes of a field list, children first. -/
def fieldListNodes : Option FieldList → List Node
  | none => []
  | some fl =>
    (fl.list.map (fun field =>
      field.names.map (fun _ => Node.other .ident) ++
        [Node.other .typeExpr, Node.other .field])).flatten ++ [Node.other .fieldList]

/-- The nodes below a declaration, children first.  None of them is a function
declaration: a function literal is an expression. -/
def innerNodes : Decl → List Node
  | .genDecl _ => []
  | .funcDecl d =>
    (match d.doc with
      | none => []
      | some g => g.list.map (fun _ => Node.other .comment) ++ [Node.other .commentGroup]) ++
    fieldListNodes d.recv ++ [Node.other .ident] ++
    (fieldListNodes d.type.params ++ fieldListNodes d.type.results ++ [Node.other .funcType]) ++
    (match d.body with
      | none => []
      | some b => b.list.map (fun _ => Node.other .stmt) ++ [Node.other .blockStmt])

/-- The node of a declaration. -/
def Decl.toNode : Decl → Node
  | .funcDecl d => .funcDecl d
  | .genDecl _ => .other .genDecl

/-- The declaration after its node was handled in place. -/
def Decl.update (decl : Decl) : Node → Decl
  | .funcDecl d => .funcDecl d
  | .other _ => decl

/-- What a walk carries: the callback's state, and whether the callback asked to
stop. -/
structure Walk (S : Type) where
  state : S
  stopped : Bool

/-- Modelled from the spec: the walk of `astutil.Apply`, a library function outside
the package, over a list of nodes whose own children are done: `post` is called on
each in turn, until it returns `false`. -/
def applyNodes {S : Type} (post : S → Node → Except Fault (Node × S × Bool)) :
    S → List Node → Except Fault (Walk S)
  | s, [] => .ok ⟨s, false⟩
  | s, n :: ns =>
    match post s n with
    | .error fault => .error fault
    | .ok (_, s, true) => applyNodes post s ns
    | .ok (_, s, false) => .ok ⟨s, true⟩

/-- Modelled from the spec: the walk of `astutil.Apply` over the declarations of a
file, each visited once: for each declaration the nodes below it, then the
declaration itself. -/
def applyDecls {S : Type} (post : S → Node → Except Fault (Node × S × Bool)) :
    S → List Decl → Except Fault (List Decl × Walk S)
  | s, [] => .ok ([], ⟨s, false⟩)
  | s, decl :: decls =>
    match applyNodes post s (innerNodes decl) with
    | .error fault => .error fault
    | .ok ⟨s, true⟩ => .ok (decl :: decls, ⟨s, true⟩)
    | .ok ⟨s, false⟩ =>
      match post s decl.toNode with
      | .error fault => .error fault
      | .ok (node, s, false) => .ok (decl.update node :: decls, ⟨s, true⟩)
      | .ok (node, s, true) =>
        match applyDecls post s decls with
        | .error fault => .error fault
        | .ok (decls, walk) => .ok (decl.update node :: decls, walk)

/-- Modelled from the spec: the call `astutil.Apply(file, nil, post)` of a library
function outside the package.  Every node is visited once; `post`, the third
argument, is called after the node's children; the walk ends when `post` returns
`false`.  The package name comes first, the file itself last. -/
def Apply {S : Type} (post : S → Node → Except Fault (Node × S × Bool)) (s : S)
    (decls : List Decl) : Except Fault (List Decl × S) :=
  match applyNodes post s [Node.other .ident] with
  | .error fault => .error fault
  | .ok ⟨s, true⟩ => .ok (decls, s)
  | .ok ⟨s, false⟩ =>
    match applyDecls post s decls with
    | .error fault => .error fault
    | .ok (decls, ⟨s, true⟩) => .ok (decls, s)
    | .ok (decls, ⟨s, false⟩) =>
      match applyNodes post s [Node.other .file] with
      | .error fault => .error fault
      | .ok walk => .ok (decls, walk.state)

/-- What the callback of `Overwrite` shares between its calls: the import table of
the file and the flag `modified`. -/
structure Progress where
  imports : List ImportSpec
  modified : Bool

/-- The callback `Overwrite` gives to `astutil.Apply`: handle the node, panic on an
error, record a modification, and go on (`return true`). -/
def overwriteStep (env : Env) (filepath : String) (s : Progress) (node : Node) :
    Except Fault (Node × Progress × Bool) :=
  let r := Handle env ⟨filepath, node, AddNamedImport⟩ s.imports
  match r.ret with
  | .error fault => .error fault
  | .ok (_, some err) => .error (.handlerError err)
  | .ok (nodeModified, none) =>
    .ok (r.node,
      { imports := r.world, modified := if nodeModified then nodeModified else s.modified },
      true)

/-- The function `Overwrite`: the file after the walk and whether it was modified,
or the panic that ended the walk. -/
def Overwrite (env : Env) (filepath : String) (file : File) : Except Fault (File × Bool) :=
  match Apply (overwriteStep env filepath) ⟨file.imports, false⟩ file.decls with
  | .error fault => .error fault
  | .ok (decls, s) => .ok ({ file with imports := s.imports, decls := decls }, s.modified)

/-! ## The words of the specification -/

/-- The marker test of the specification: the declaration has a documentation
comment whose text, trimmed of tabs, spaces and newlines, is `@Log()`. -/
def FuncDecl.marked (d : FuncDecl) : Bool :=
  match d.doc with
  | none => false
  | some g => decide (stringsTrim g.Text "\t \n" = "@Log()")

/-- The selector of the specification: the logger, bound to the context if `bound`,
tagged with the file path, ending in the info-level formatting call. -/
def selectorText (filepath : String) (bound : Bool) : String :=
  "log.Logger" ++ (if bound then ".WithContext(ctx)" else "") ++
    ".WithField(\"filepath\", \"" ++ filepath ++ "\")" ++ ".Infof"

/-- The parameter names `Handle` derives: the names of the parameter list after
default naming. -/
def paramNames (d : FuncDecl) : List String :=
  (getFieldListNames d.type.params).2

/-- The result names `Handle` derives. -/
def resultNames (d : FuncDecl) : List String :=
  (getFieldListNames d.type.results).2

/-- Whether the first derived parameter name is `ctx`. -/
def ctxBound (d : FuncDecl) : Bool :=
  decide ((paramNames d).head? = some "ctx")

/-- The parameter names the entry call prints: the derived names, without a
leading `ctx`. -/
def printedParams (d : FuncDecl) : List String :=
  if ctxBound d then (paramNames d).drop 1 else paramNames d

/-- The declaration once the marker is stripped and the default names are set. -/
def prepared (d : FuncDecl) : FuncDecl :=
  { d with
    doc := d.doc.map (fun g => { g with list := [] }),
    type := { params := (getFieldListNames d.type.params).1,
              results := (getFieldListNames d.type.results).1 } }

/-- The entry statement for a declaration with label `label` and parsed selector
`fn`. -/
def entryStmt (env : Env) (d : FuncDecl) (label : String) (fn : Expr) : Stmt :=
  .exprStmt (.call fn ((genBeforeLogArgs env label (printedParams d)).map Expr.ident))

/-- The deferred exit statement for a declaration with label `label` and parsed
selector `fn`. -/
def exitStmt (env : Env) (d : FuncDecl) (label : String) (fn : Expr) : Stmt :=
  .deferStmt (.call (.funcLit { params := none, results := none }
    [.exprStmt (.call fn ((genAfterLogArgs env label (resultNames d)).map Expr.ident))]) [])

/-- The field `SetDefaultNames` leaves in the place of `field` when `k` anonymous
fields came before it. -/
def namedField (k : Nat) (field : Field) : Field :=
  if field.names = [] then { field with names := [Ident.mk ("_" ++ toString k)] } else field

/-- Whether a declaration is a function declaration carrying the marker. -/
def Decl.marked : Decl → Bool
  | .funcDecl d => d.marked
  | .genDecl _ => false

/-- How `Overwrite` leaves one declaration: a marked function declaration is
prepared and gets its entry and its deferred exit statement in front of its body, any
other declaration stays as it is. -/
def Rewritten (env : Env) (filepath : String) (decl decl2 : Decl) : Prop :=
  match decl with
  | .genDecl _ => decl2 = decl
  | .funcDecl d =>
    if d.marked then
      ∃ label fn body, getFuncDeclName env d = .ok label ∧
        env.parseExpr (selectorText filepath (ctxBound d)) = .ok fn ∧
        d.body = some body ∧
        decl2 = .funcDecl { prepared d with
          body := some ⟨[entryStmt env d label fn, exitStmt env d label fn] ++ body.list⟩ }
    else decl2 = decl

/-- The names of a list of fields, flattened in declared order: a field with several
names gives all of them. -/
def flatNames (fields : List Field) : List String :=
  (fields.map (fun field => field.names.map Ident.name)).flatten

/-- The names of a field list that may be absent. -/
def fieldNames : Option FieldList → List String
  | none => []
  | some fl => flatNames fl.list

/-- The number of anonymous fields. -/
def anonymousCount (fields : List Field) : Nat :=
  fields.countP (fun g => decide (g.names = []))

/-- The number a run of decimal digits stands for. -/
def decimalValue (cs : List Char) : Nat :=
  cs.foldl (fun a c => 10 * a + (c.toNat - 48)) 0

/-- What follows the prefix in a format string for `n` names: `(void)` for none,
otherwise `n` placeholders `%+v` separated by `, `. -/
def formatSuffix (n : Nat) : String :=
  if n = 0 then "(void)" else String.intercalate ", " (List.replicate n "%+v")

/-- The format string of the entry call, quoted. -/
def entryFormat (env : Env) (label : String) (n : Nat) : String :=
  strconvQuote env.printable ("#" ++ label ++ " start, params: " ++ formatSuffix n)

/-- The format string of the exit call, quoted. -/
def exitFormat (env : Env) (label : String) (n : Nat) : String :=
  strconvQuote env.printable ("#" ++ label ++ " end, results: " ++ formatSuffix n)

/-- An import adder that only records its calls, in order. -/
def recordAdder (name path : String) (calls : List (String × String)) :
    Bool × List (String × String) :=
  (true, calls ++ [(name, path)])

/-! ## Sample inputs -/

/-- An environment whose parser keeps every selector by its text. -/
def sampleEnv : Env :=
  Env.mk (fun src => .ok (.raw src)) (fun _ => false) (fun _ => "&{}")

/-- The function `fn` of `testdata/main.go`. -/
def sampleFn : FuncDecl :=
  FuncDecl.mk (some (CommentGroup.mk [Comment.line " @Log()"])) none "fn"
    (FuncType.mk
      (some (FieldList.mk [Field.mk [Ident.mk "ctx"] (.raw "context.Context"),
        Field.mk [Ident.mk "a"] (.ident "int"),
        Field.mk [Ident.mk "b", Ident.mk "c"] (.ident "string"),
        Field.mk [Ident.mk "d"] (.ident "bool")]))
      (some (FieldList.mk [Field.mk [] (.ident "int"), Field.mk [] (.ident "string"),
        Field.mk [] (.ident "string")])))
    (some (BlockStmt.mk [Stmt.raw "log.Logger.WithContext(ctx).Infof(\"#fn executing...\")",
      Stmt.raw "return a, b, c"]))

/-- The function `main` of `testdata/main.go`, which has no documentation comment. -/
def sampleMain : FuncDecl :=
  FuncDecl.mk none none "main" (FuncType.mk (some (FieldList.mk [])) none)
    (some (BlockStmt.mk [Stmt.raw "fn(context.Background(), 1, \"2\", \"3\", true)"]))

/-- A marked declaration without a body: `// @Log()` above `func ext()`. -/
def externFn : FuncDecl :=
  FuncDecl.mk (some (CommentGroup.mk [Comment.line " @Log()"])) none "ext"
    (FuncType.mk (some (FieldList.mk [])) none) none

/-- The context of a call of `Handle` on `node` in `testdata/main.go`. -/
def sampleInfo (node : Node) : Info (List ImportSpec) :=
  Info.mk "testdata/main.go" node AddNamedImport

/-- A marked method with a pointer receiver: `// @Log()` above
`func (f *Foo) Bar() {}`. -/
def sampleMethod : FuncDecl :=
  FuncDecl.mk (some (CommentGroup.mk [Comment.line " @Log()"]))
    (some (FieldList.mk [Field.mk [Ident.mk "f"] (.star (.ident "Foo"))])) "Bar"
    (FuncType.mk (some (FieldList.mk [])) none) (some (BlockStmt.mk []))

/-- A file with two marked declarations, `fn` and the method `Bar`, around two
unmarked ones. -/
def sampleTwoMarked : File :=
  File.mk "main" [ImportSpec.mk "" "context"]
    [Decl.funcDecl sampleFn, Decl.genDecl "type Foo struct{}", Decl.funcDecl sampleMain,
      Decl.funcDecl sampleMethod]

/-- The file `testdata/main.go`: the two imports, `main` and `fn`. -/
def sampleFile : File :=
  File.mk "main" [ImportSpec.mk "" "context", ImportSpec.mk "" "logannotation/testdata/log"]
    [Decl.funcDecl sampleMain, Decl.funcDecl sampleFn]

/-- An environment whose parser accepts a selector exactly when it holds the four
quotes of its two string literals, as the selector of a file path without a quote
does. -/
def strictEnv : Env :=
  Env.mk (fun src => if src.data.count '"' = 4 then .ok (.raw src)
    else .error "missing ',' in argument list") (fun _ => false) (fun _ => "&{}")

/-- What `fmt` prints under `%v` for a small node built without positions: a
parenthesized identifier is `&{0 name 0}`, a pointer to an identifier `&{0 name}`. -/
def dumpNoPos : TypeExpr → String
  | .paren (.ident name) => "&\x7b0 " ++ name ++ " 0\x7d"
  | .star (.ident name) => "&\x7b0 " ++ name ++ "\x7d"
  | _ => "&{}"

/-- An environment for nodes built without positions. -/
def noPosEnv : Env :=
  Env.mk (fun src => .ok (.raw src)) (fun _ => false) dumpNoPos

/-- A marked method whose receiver type is a pointer to a parenthesized type name:
`// @Log()` above `func (f *(Foo)) Bar() {}`. -/
def parenStarMethod : FuncDecl :=
  FuncDecl.mk (some (CommentGroup.mk [Comment.line " @Log()"]))
    (some (FieldList.mk [Field.mk [Ident.mk "f"] (.star (.paren (.ident "Foo")))])) "Bar"
    (FuncType.mk (some (FieldList.mk [])) none) (some (BlockStmt.mk []))

/-- A marked declaration with an empty receiver list: `// @Log()` above
`func () Bar() {}`. -/
def emptyRecvFn : FuncDecl :=
  FuncDecl.mk (some (CommentGroup.mk [Comment.line " @Log()"]))
    (some (FieldList.mk [])) "Bar"
    (FuncType.mk (some (FieldList.mk [])) none) (some (BlockStmt.mk []))

/-! ## Lemmas on `Handle` -/

theorem selector_eq (filepath : String) (names : List String) :
    (if decide (names ≠ [] ∧ names.head? = some "ctx") = true
        then "log.Logger" ++ ".WithContext(ctx)" else "log.Logger") ++
      (".WithField(\"filepath\", \"" ++ filepath ++ "\")") ++ ".Infof"
    = selectorText filepath (decide (names.head? = some "ctx")) := by
  apply String.ext
  cases names with
  | nil => simp [selectorText, String.data_append]
  | cons a l =>
    by_cases h : a = "ctx"
    · subst h
      simp [selectorText, String.data_append]
    · simp [selectorText, h, String.data_append]

theorem getFuncDeclName_prepared (env : Env) (d : FuncDecl) (doc : Option CommentGroup)
    (type : FuncType) :
    getFuncDeclName env { d with doc := doc, type := type } = getFuncDeclName env d := rfl

theorem prepared_eq (d : FuncDecl) (g : CommentGroup) (h : d.doc = some g) :
    prepared d = FuncDecl.mk (some (CommentGroup.mk [])) d.recv d.name
      (FuncType.mk (getFieldListNames d.type.params).1 (getFieldListNames d.type.results).1)
      d.body := by
  simp [prepared, h]

/-- The label exists unless the receiver list is there and empty. -/
theorem getFuncDeclName_ok (env : Env) (d : FuncDecl) (h : d.recv ≠ some ⟨[]⟩) :
    ∃ label, getFuncDeclName env d = .ok label := by
  unfold getFuncDeclName
  split
  · exact ⟨_, rfl⟩
  · rename_i recv hrecv
    split
    · rename_i hlist
      exfalso
      apply h
      rw [hrecv]
      cases recv
      simp only at hlist
      rw [hlist]
    · exact ⟨_, rfl⟩

/-- What `Handle` does on a node that is no marked function declaration. -/
theorem Handle_unmarked {σ : Type} (env : Env) (info : Info σ) (w : σ)
    (h : ∀ d, info.node = .funcDecl d → d.marked = false) :
    Handle env info w = ⟨info.node, w, .ok (false, none)⟩ := by
  unfold Handle
  split
  · rfl
  · rename_i d hd
    have hm := h d hd
    unfold FuncDecl.marked at hm
    split
    · rfl
    · rename_i g hg
      rw [hg] at hm
      simp at hm
      simp [hm]

/-- What `Handle` does on a marked function declaration, step by step. -/
theorem Handle_marked {σ : Type} (env : Env) (info : Info σ) (w : σ) (d : FuncDecl)
    (hn : info.node = .funcDecl d) (hm : d.marked = true) :
    Handle env info w =
      match getFuncDeclName env d with
      | .error fault =>
        ⟨.funcDecl (prepared d), (info.namedImportAdder "" "logannotation/testdata/log" w).2,
          .error fault⟩
      | .ok label =>
        match env.parseExpr (selectorText info.filepath (ctxBound d)) with
        | .error err =>
          ⟨.funcDecl (prepared d), (info.namedImportAdder "" "logannotation/testdata/log" w).2,
            .ok (false, some err)⟩
        | .ok fn =>
          match d.body with
          | none =>
            ⟨.funcDecl (prepared d),
              (info.namedImportAdder "" "logannotation/testdata/log" w).2,
              .error .nilDereference⟩
          | some body =>
            ⟨.funcDecl { prepared d with
                body := some ⟨[entryStmt env d label fn, exitStmt env d label fn] ++ body.list⟩ },
              (info.namedImportAdder "" "logannotation/testdata/log" w).2, .ok (true, none)⟩ := by
  unfold FuncDecl.marked at hm
  unfold Handle
  rw [hn]
  simp only
  cases hdoc : d.doc with
  | none => rw [hdoc] at hm; simp at hm
  | some g =>
    rw [hdoc] at hm
    simp only [decide_eq_true_eq] at hm
    simp only [hm, ne_eq, not_true_eq_false, ↓reduceIte, getFuncDeclName_prepared, selector_eq]
    have hp := prepared_eq d g hdoc
    cases hl : getFuncDeclName env d with
    | error fault => simp [hp]
    | ok label =>
      simp only [NewCallExpr]
      have hb : decide ((getFieldListNames d.type.params).2.head? = some "ctx") = ctxBound d := rfl
      rw [hb]
      cases hf : env.parseExpr (selectorText info.filepath (ctxBound d)) with
      | error err => simp [hp]
      | ok fn =>
        cases hbody : d.body with
        | none => simp [hp, hbody]
        | some body =>
          have hc : (¬(getFieldListNames d.type.params).2 = [] ∧
              (getFieldListNames d.type.params).2.head? = some "ctx") ↔ ctxBound d = true := by
            unfold ctxBound paramNames
            cases (getFieldListNames d.type.params).2 <;> simp
          simp [hp, hbody, entryStmt, exitStmt, NewFuncLitDefer, NewFuncLit, printedParams,
            paramNames, resultNames, hc]

/-- A call of `Handle` that reports a modification: the node is a marked function
declaration with a label, a parsed selector and a body, and the result is the
prepared declaration with the two statements in front of the body. -/
theorem Handle_success_inv {σ : Type} (env : Env) (info : Info σ) (w : σ) (err : Option String)
    (h : (Handle env info w).ret = .ok (true, err)) :
    ∃ d label fn body, info.node = .funcDecl d ∧ d.marked = true ∧
      getFuncDeclName env d = .ok label ∧
      env.parseExpr (selectorText info.filepath (ctxBound d)) = .ok fn ∧
      d.body = some body ∧ err = none ∧
      Handle env info w =
        ⟨.funcDecl { prepared d with
            body := some ⟨[entryStmt env d label fn, exitStmt env d label fn] ++ body.list⟩ },
          (info.namedImportAdder "" "logannotation/testdata/log" w).2, .ok (true, none)⟩ := by
  cases hn : info.node with
  | other k =>
    have := Handle_unmarked env info w (by intro d hd; rw [hn] at hd; cases hd)
    rw [this] at h
    simp at h
  | funcDecl d =>
    cases hm : d.marked with
    | false =>
      have := Handle_unmarked env info w (by
        intro d' hd; rw [hn] at hd; cases hd; exact hm)
      rw [this] at h
      simp at h
    | true =>
      have hM := Handle_marked env info w d hn hm
      rw [hM] at h ⊢
      cases hl : getFuncDeclName env d with
      | error fault => rw [hl] at h; simp at h
      | ok label =>
        rw [hl] at h
        cases hf : env.parseExpr (selectorText info.filepath (ctxBound d)) with
        | error e => rw [hf] at h; simp at h
        | ok fn =>
          rw [hf] at h
          cases hb : d.body with
          | none => rw [hb] at h; simp at h
          | some body =>
            rw [hb] at h
            simp at h
            exact ⟨d, label, fn, body, rfl, hm, hl, hf, hb, h.symm, rfl⟩

/-! ## The marker (C1, C2, C3) -/

/-- A text whose trimmed form is `marker` is `marker` between two runs of characters
of the cutset. -/
theorem stringsTrim_eq_inv (t cutset marker : String) (h : stringsTrim t cutset = marker) :
    ∃ pre post, t.data = pre ++ marker.data ++ post ∧
      (∀ c ∈ pre, c ∈ cutset.data) ∧ (∀ c ∈ post, c ∈ cutset.data) := by
  have hd : ((t.data.dropWhile (fun c => cutset.data.contains c)).reverse.dropWhile
      (fun c => cutset.data.contains c)).reverse = marker.data := by
    rw [← h]
    rfl
  refine ⟨t.data.takeWhile (fun c => cutset.data.contains c),
    ((t.data.dropWhile (fun c => cutset.data.contains c)).reverse.takeWhile
      (fun c => cutset.data.contains c)).reverse, ?_, ?_, ?_⟩
  · rw [← hd, List.append_assoc, ← List.reverse_append, List.takeWhile_append_dropWhile,
      List.reverse_reverse, List.takeWhile_append_dropWhile]
  · intro c hc
    have := List.mem_takeWhile_imp hc
    simpa using this
  · intro c hc
    rw [List.mem_reverse] at hc
    have := List.mem_takeWhile_imp hc
    simpa using this


/-- The marker decides the report wherever `Handle` can finish: provided the composed
selector parses and a function declaration has a body and no empty receiver list,
`Handle` reports `modified = true` exactly when the node is a function declaration
with a documentation comment whose text, trimmed of tabs, spaces and newlines, is
`@Log()`.  The texts `@Log() `, ` @Log()` and `@Log()\n` match; `@Log(foo)`, `@log()`
and a text with `@Log()` among other text do not. -/
theorem marker_decides_report {σ : Type} (env : Env) (info : Info σ) (w : σ)
    (hparse : ∀ bound, ∃ fn, env.parseExpr (selectorText info.filepath bound) = .ok fn)
    (hbody : ∀ d, info.node = .funcDecl d → d.body ≠ none ∧ d.recv ≠ some ⟨[]⟩) :
    ((∃ err, (Handle env info w).ret = .ok (true, err)) ↔
      ∃ d g, info.node = .funcDecl d ∧ d.doc = some g ∧
        stringsTrim g.Text "\t \n" = "@Log()") ∧
    stringsTrim "@Log() " "\t \n" = "@Log()" ∧
    stringsTrim " @Log()" "\t \n" = "@Log()" ∧
    stringsTrim "@Log()\n" "\t \n" = "@Log()" ∧
    stringsTrim "@Log(foo)" "\t \n" ≠ "@Log()" ∧
    stringsTrim "@log()" "\t \n" ≠ "@Log()" ∧
    stringsTrim "see @Log() below" "\t \n" ≠ "@Log()" ∧
    (∀ t, stringsTrim t "\t \n" = "@Log()" →
      ∃ pre post, t.data = pre ++ "@Log()".data ++ post ∧
        (∀ c ∈ pre, c = '\t' ∨ c = ' ' ∨ c = '\n') ∧
        (∀ c ∈ post, c = '\t' ∨ c = ' ' ∨ c = '\n')) := by
  refine ⟨⟨?_, ?_⟩, by decide, by decide, by decide, by decide, by decide, by decide, ?_⟩
  rotate_left 2
  · intro t ht
    obtain ⟨pre, post, h1, h2, h3⟩ := stringsTrim_eq_inv t _ _ ht
    refine ⟨pre, post, h1, ?_, ?_⟩
    · intro c hc
      simpa using h2 c hc
    · intro c hc
      simpa using h3 c hc
  · rintro ⟨err, h⟩
    obtain ⟨d, _, _, _, hn, hm, _⟩ := Handle_success_inv env info w err h
    unfold FuncDecl.marked at hm
    cases hd : d.doc with
    | none => rw [hd] at hm; simp at hm
    | some g =>
      rw [hd] at hm
      exact ⟨d, g, hn, hd, by simpa using hm⟩
  · rintro ⟨d, g, hn, hd, hm⟩
    have hmk : d.marked = true := by simp [FuncDecl.marked, hd, hm]
    have hM := Handle_marked env info w d hn hmk
    obtain ⟨hb, hr⟩ := hbody d hn
    obtain ⟨fn, hf⟩ := hparse (ctxBound d)
    have hl := getFuncDeclName_ok env d hr
    obtain ⟨label, hl⟩ := hl
    cases hbd : d.body with
    | none => exact absurd hbd hb
    | some body =>
      rw [hl, hf, hbd] at hM
      exact ⟨none, by rw [hM]⟩

/-- The function `fn` of `testdata/main.go`, with a parser that accepts the selector,
is reported as modified. -/
theorem marker_decides_report_sample :
    ((∃ err, (Handle sampleEnv (sampleInfo (.funcDecl sampleFn)) []).ret = .ok (true, err)) ↔
      ∃ d g, (sampleInfo (.funcDecl sampleFn)).node = .funcDecl d ∧ d.doc = some g ∧
        stringsTrim g.Text "\t \n" = "@Log()") ∧
    (Handle sampleEnv (sampleInfo (.funcDecl sampleFn)) []).ret = .ok (true, none) :=
  ⟨(marker_decides_report sampleEnv (sampleInfo (.funcDecl sampleFn)) []
      (fun _ => ⟨_, rfl⟩)
      (by intro d h; cases h; exact ⟨by simp [sampleFn], by simp [sampleFn]⟩)).1, rfl⟩

/-- C1: `Handle` is to report `modified = true` exactly when the node is a function
declaration whose trimmed comment text is `@Log()`, the selector parsing.  At the
marked declaration `// @Log()` above `func ext()`, which has no body, the selector
parses and the comment matches, but `Handle` panics on the `nil` body and reports
nothing. -/
theorem Handle_marked_without_body_panics :
    (∀ bound, ∃ fn, sampleEnv.parseExpr (selectorText "testdata/main.go" bound) = .ok fn) ∧
    (∃ g, externFn.doc = some g ∧ stringsTrim g.Text "\t \n" = "@Log()") ∧
    (Handle sampleEnv (sampleInfo (.funcDecl externFn)) []).ret = .error .nilDereference ∧
    ¬ ∃ err, (Handle sampleEnv (sampleInfo (.funcDecl externFn)) []).ret = .ok (true, err) := by
  refine ⟨fun _ => ⟨_, rfl⟩, ⟨_, rfl, by decide⟩, rfl, ?_⟩
  rintro ⟨err, h⟩
  have h2 : (Handle sampleEnv (sampleInfo (.funcDecl externFn)) []).ret
      = .error .nilDereference := rfl
  rw [h2] at h
  cases h

/-- C2: on a node that is not a function declaration, or is one without a
documentation comment, or one whose trimmed comment text is not `@Log()`, `Handle`
returns `(false, nil)`, leaves the node as it is, and leaves the state of the import
adder as it is, whatever the adder: the adder is not called. -/
theorem Handle_no_match_passes {σ : Type} (env : Env) (info : Info σ) (w : σ)
    (h : ∀ d g, info.node = .funcDecl d → d.doc = some g →
      stringsTrim g.Text "\t \n" ≠ "@Log()") :
    Handle env info w = ⟨info.node, w, .ok (false, none)⟩ := by
  apply Handle_unmarked
  intro d hd
  unfold FuncDecl.marked
  cases hdoc : d.doc with
  | none => rfl
  | some g => simpa using h d g hd hdoc

/-- C2, witness: `main` of `testdata/main.go` has no documentation comment. -/
theorem Handle_no_match_passes_witness :
    (∀ d g, (sampleInfo (.funcDecl sampleMain)).node = .funcDecl d → d.doc = some g →
      stringsTrim g.Text "\t \n" ≠ "@Log()") ∧
    Handle sampleEnv (sampleInfo (.funcDecl sampleMain)) [] =
      ⟨.funcDecl sampleMain, [], .ok (false, none)⟩ :=
  have h : ∀ d g, (sampleInfo (.funcDecl sampleMain)).node = .funcDecl d → d.doc = some g →
      stringsTrim g.Text "\t \n" ≠ "@Log()" := by
    intro d g hd hg
    cases hd
    simp [sampleMain] at hg
  ⟨h, Handle_no_match_passes sampleEnv (sampleInfo (.funcDecl sampleMain)) [] h⟩

/-- C3: after a call of `Handle` that reports `modified = true` the node is a function
declaration whose comment list is empty, and a second call on it, in any state of
the import adder, returns `(false, nil)` and leaves the declaration and that state
as they are. -/
theorem Handle_idempotent {σ : Type} (env : Env) (info : Info σ) (w : σ) (err : Option String)
    (h : (Handle env info w).ret = .ok (true, err)) :
    ∃ d, (Handle env info w).node = .funcDecl d ∧ d.doc = some ⟨[]⟩ ∧
      ∀ w2, Handle env { info with node := .funcDecl d } w2 =
        ⟨.funcDecl d, w2, .ok (false, none)⟩ := by
  obtain ⟨d, label, fn, body, hn, hm, _, _, _, _, hH⟩ := Handle_success_inv env info w err h
  have hdoc : ∃ g, d.doc = some g := by
    unfold FuncDecl.marked at hm
    cases hd : d.doc with
    | none => rw [hd] at hm; simp at hm
    | some g => exact ⟨g, rfl⟩
  obtain ⟨g, hg⟩ := hdoc
  refine ⟨_, by rw [hH], by simp [prepared, hg], ?_⟩
  intro w2
  apply Handle_unmarked
  intro d2 hd2
  simp only [Node.funcDecl.injEq] at hd2
  subst hd2
  simp only [FuncDecl.marked, prepared, hg, Option.map_some']
  decide

/-- C3, witness: `fn` of `testdata/main.go`. -/
theorem Handle_idempotent_witness :
    (Handle sampleEnv (sampleInfo (.funcDecl sampleFn)) []).ret = .ok (true, none) ∧
    ∃ d, (Handle sampleEnv (sampleInfo (.funcDecl sampleFn)) []).node = .funcDecl d ∧
      d.doc = some ⟨[]⟩ ∧
      ∀ w2, Handle sampleEnv { sampleInfo (.funcDecl sampleFn) with node := .funcDecl d } w2 =
        ⟨.funcDecl d, w2, .ok (false, none)⟩ :=
  ⟨rfl, Handle_idempotent sampleEnv (sampleInfo (.funcDecl sampleFn)) [] none rfl⟩

/-! ## The log arguments (C7, C8) -/

theorem intercalate_go_placeholders (acc : String) (k : Nat) :
    String.intercalate.go acc ", " (List.replicate k "%+v") =
      acc ++ ⟨(List.replicate k ", %+v".data).flatten⟩ := by
  induction k generalizing acc with
  | zero =>
    apply String.ext
    simp [String.intercalate.go, String.data_append]
  | succ k ih =>
    rw [List.replicate_succ, String.intercalate.go, ih]
    apply String.ext
    simp [String.data_append, List.replicate_succ]

/-- The placeholders `genLogArgs` writes for `n + 1` arguments: `%+v`, `n + 1`
times, with `, ` in between. -/
theorem placeholders_eq (n : Nat) :
    sliceFrom (stringsRepeat ", %+v" (n + 1)) 2 =
      String.intercalate ", " (List.replicate (n + 1) "%+v") := by
  rw [List.replicate_succ, String.intercalate, intercalate_go_placeholders]
  apply String.ext
  simp [sliceFrom, stringsRepeat, List.replicate_succ, String.data_append]

/-- The first argument of `genLogArgs` is the format, the others are the names. -/
theorem genLogArgs_cons (env : Env) (formatPrefix : String) (args : List String) :
    ∃ format, genLogArgs env formatPrefix args = format :: args := by
  unfold genLogArgs
  split
  · rename_i h
    exact ⟨_, by rw [List.length_eq_zero.mp h]⟩
  · exact ⟨_, rfl⟩

/-- C7: for a non-empty list of `n` argument names `genLogArgs` returns `n + 1`
elements: the Go-quoted string made of the prefix and `n` placeholders `%+v` separated
by `, `, then the `n` names unchanged and in order.  `genBeforeLogArgs` uses the
prefix `#<label> start, params: `, `genAfterLogArgs` the prefix
`#<label> end, results: `. -/
theorem genLogArgs_nonempty (env : Env) (formatPrefix label : String) (args : List String)
    (h : args ≠ []) :
    (genLogArgs env formatPrefix args).length = args.length + 1 ∧
    genLogArgs env formatPrefix args =
      strconvQuote env.printable
        (formatPrefix ++ String.intercalate ", " (List.replicate args.length "%+v")) :: args ∧
    genBeforeLogArgs env label args =
      genLogArgs env ("#" ++ label ++ " start, params: ") args ∧
    genAfterLogArgs env label args =
      genLogArgs env ("#" ++ label ++ " end, results: ") args := by
  have hlen : args.length ≠ 0 := by
    intro h0
    exact h (List.length_eq_zero.mp h0)
  obtain ⟨n, hn⟩ := Nat.exists_eq_succ_of_ne_zero hlen
  have heq : genLogArgs env formatPrefix args =
      strconvQuote env.printable
        (formatPrefix ++ String.intercalate ", " (List.replicate args.length "%+v")) :: args := by
    unfold genLogArgs
    rw [if_neg hlen, hn, placeholders_eq]
  refine ⟨?_, heq, rfl, rfl⟩
  rw [heq, List.length_cons]

/-- C7, witness: the four printed parameters of `fn` in `testdata/main.go`. -/
theorem genLogArgs_nonempty_witness :
    ["a", "b", "c", "d"] ≠ [] ∧
    genBeforeLogArgs sampleEnv "fn" ["a", "b", "c", "d"] =
      ["\"#fn start, params: %+v, %+v, %+v, %+v\"", "a", "b", "c", "d"] :=
  ⟨by decide,
    ((genLogArgs_nonempty sampleEnv "#fn start, params: " "fn" ["a", "b", "c", "d"]
      (by decide)).2.2.1).trans (by decide)⟩

/-- C8: for an empty list of names `genLogArgs` returns one element, the quoted
prefix followed by `(void)`: no placeholder, no further argument.  The list is empty
for an absent field list and for a field list without fields. -/
theorem genLogArgs_void (env : Env) (formatPrefix : String) :
    genLogArgs env formatPrefix [] = [strconvQuote env.printable (formatPrefix ++ "(void)")] ∧
    (genLogArgs env formatPrefix []).length = 1 ∧
    (getFieldListNames none).2 = [] ∧
    (getFieldListNames (some ⟨[]⟩)).2 = [] ∧
    printedParams (FuncDecl.mk none none "f"
      (FuncType.mk (some ⟨[⟨[⟨"ctx"⟩], .raw "context.Context"⟩]⟩) none) none) = [] ∧
    genBeforeLogArgs sampleEnv "main" [] = ["\"#main start, params: (void)\""] :=
  ⟨rfl, rfl, rfl, rfl, by decide, by decide⟩

/-! ## The splice and the context parameter (C4, C9) -/

/-- C4: when `Handle` reports a modification of a declaration with body statements
`S`, the new body is `[entry, exit] ++ S`: `entry` is an expression statement holding
the entry log call, `exit` is a defer statement calling, without arguments, a function
literal without parameters whose body is the one expression statement holding the exit
log call.  The body is longer by two. -/
theorem Handle_splices_two_statements {σ : Type} (env : Env) (info : Info σ) (w : σ)
    (err : Option String) (d : FuncDecl) (S : List Stmt)
    (hn : info.node = .funcDecl d) (hb : d.body = some ⟨S⟩)
    (h : (Handle env info w).ret = .ok (true, err)) :
    ∃ d2 entry exit label, (Handle env info w).node = .funcDecl d2 ∧
      d2.body = some ⟨[Stmt.exprStmt entry,
        Stmt.deferStmt (.call (.funcLit ⟨none, none⟩ [Stmt.exprStmt exit]) [])] ++ S⟩ ∧
      (∀ b2, d2.body = some b2 → b2.list.length = S.length + 2) ∧
      getFuncDeclName env d = .ok label ∧
      NewCallExpr env (selectorText info.filepath (ctxBound d))
        (genBeforeLogArgs env label (printedParams d)) = .ok entry ∧
      NewCallExpr env (selectorText info.filepath (ctxBound d))
        (genAfterLogArgs env label (resultNames d)) = .ok exit := by
  obtain ⟨d1, label, fn, body, hn1, _, hl, hf, hb1, _, hH⟩ := Handle_success_inv env info w err h
  rw [hn] at hn1
  cases hn1
  rw [hb] at hb1
  cases hb1
  refine ⟨_, _, _, label, by rw [hH], rfl, ?_, hl, ?_, ?_⟩
  · intro b2 hb2
    simp only [Option.some.injEq] at hb2
    subst hb2
    simp
  · simp [NewCallExpr, hf]
  · simp [NewCallExpr, hf]

/-- C4, witness: `fn` of `testdata/main.go`, whose body has two statements. -/
theorem Handle_splices_two_statements_witness :
    (Handle sampleEnv (sampleInfo (.funcDecl sampleFn)) []).ret = .ok (true, none) ∧
    ∃ d2 entry exit label,
      (Handle sampleEnv (sampleInfo (.funcDecl sampleFn)) []).node = .funcDecl d2 ∧
      d2.body = some ⟨[Stmt.exprStmt entry,
        Stmt.deferStmt (.call (.funcLit ⟨none, none⟩ [Stmt.exprStmt exit]) [])] ++
        [Stmt.raw "log.Logger.WithContext(ctx).Infof(\"#fn executing...\")",
          Stmt.raw "return a, b, c"]⟩ ∧
      (∀ b2, d2.body = some b2 → b2.list.length = 2 + 2) ∧
      getFuncDeclName sampleEnv sampleFn = .ok label ∧
      NewCallExpr sampleEnv (selectorText "testdata/main.go" (ctxBound sampleFn))
        (genBeforeLogArgs sampleEnv label (printedParams sampleFn)) = .ok entry ∧
      NewCallExpr sampleEnv (selectorText "testdata/main.go" (ctxBound sampleFn))
        (genAfterLogArgs sampleEnv label (resultNames sampleFn)) = .ok exit :=
  ⟨rfl, Handle_splices_two_statements sampleEnv (sampleInfo (.funcDecl sampleFn)) [] none
    sampleFn _ rfl rfl rfl⟩

/-- C9: when `Handle` reports a modification, the entry call is the parsed selector
applied to the format string and the printed names.  If the first derived parameter
name is `ctx`, the selector has the step `.WithContext(ctx)` and the printed names are
the derived names without that first one; otherwise the selector has no such step and
all derived names, a `ctx` at a later position included, are printed. -/
theorem Handle_elides_leading_ctx {σ : Type} (env : Env) (info : Info σ) (w : σ)
    (err : Option String) (d : FuncDecl) (hn : info.node = .funcDecl d)
    (h : (Handle env info w).ret = .ok (true, err)) :
    ∃ d2 fn format printed rest, (Handle env info w).node = .funcDecl d2 ∧
      d2.body = some ⟨Stmt.exprStmt (.call fn (.ident format :: printed.map Expr.ident)) :: rest⟩ ∧
      ((paramNames d).head? = some "ctx" →
        env.parseExpr ("log.Logger" ++ ".WithContext(ctx)" ++
          ".WithField(\"filepath\", \"" ++ info.filepath ++ "\")" ++ ".Infof") = .ok fn ∧
        printed = (paramNames d).tail) ∧
      ((paramNames d).head? ≠ some "ctx" →
        env.parseExpr ("log.Logger" ++
          ".WithField(\"filepath\", \"" ++ info.filepath ++ "\")" ++ ".Infof") = .ok fn ∧
        printed = paramNames d) := by
  obtain ⟨d1, label, fn, body, hn1, _, hl, hf, hb1, _, hH⟩ := Handle_success_inv env info w err h
  rw [hn] at hn1
  cases hn1
  obtain ⟨format, hfmt⟩ := genLogArgs_cons env ("#" ++ label ++ " start, params: ") (printedParams d)
  refine ⟨{ prepared d with
      body := some ⟨[entryStmt env d label fn, exitStmt env d label fn] ++ body.list⟩ },
    fn, format, printedParams d, exitStmt env d label fn :: body.list, by rw [hH], ?_, ?_, ?_⟩
  · simp [entryStmt, genBeforeLogArgs, hfmt]
  · intro hc
    have hcb : ctxBound d = true := by simp [ctxBound, hc]
    rw [hcb] at hf
    refine ⟨?_, by simp [printedParams, hcb]⟩
    rw [← hf]
    congr 1
  · intro hc
    have hcb : ctxBound d = false := by simp [ctxBound, hc]
    rw [hcb] at hf
    refine ⟨?_, by simp [printedParams, hcb]⟩
    rw [← hf]
    congr 1

/-- C9, witness: `fn` of `testdata/main.go`, whose first parameter is `ctx`. -/
theorem Handle_elides_leading_ctx_witness :
    (Handle sampleEnv (sampleInfo (.funcDecl sampleFn)) []).ret = .ok (true, none) ∧
    paramNames sampleFn = ["ctx", "a", "b", "c", "d"] ∧
    ∃ d2 fn format printed rest,
      (Handle sampleEnv (sampleInfo (.funcDecl sampleFn)) []).node = .funcDecl d2 ∧
      d2.body = some ⟨Stmt.exprStmt (.call fn (.ident format :: printed.map Expr.ident)) :: rest⟩ ∧
      ((paramNames sampleFn).head? = some "ctx" →
        sampleEnv.parseExpr ("log.Logger" ++ ".WithContext(ctx)" ++
          ".WithField(\"filepath\", \"" ++ "testdata/main.go" ++ "\")" ++ ".Infof") = .ok fn ∧
        printed = (paramNames sampleFn).tail) ∧
      ((paramNames sampleFn).head? ≠ some "ctx" →
        sampleEnv.parseExpr ("log.Logger" ++
          ".WithField(\"filepath\", \"" ++ "testdata/main.go" ++ "\")" ++ ".Infof") = .ok fn ∧
        printed = paramNames sampleFn) :=
  ⟨rfl, by decide,
    Handle_elides_leading_ctx sampleEnv (sampleInfo (.funcDecl sampleFn)) [] none sampleFn
      rfl rfl⟩

/-! ## Default names (C10) -/

theorem setDefaultNamesLoop_get (fields : List Field) (index i : Nat) :
    (setDefaultNamesLoop index fields).1[i]? =
      fields[i]?.map
        (namedField (index + (fields.take i).countP (fun g => decide (g.names = [])))) := by
  induction fields generalizing index i with
  | nil => simp [setDefaultNamesLoop]
  | cons f fs ih =>
    unfold setDefaultNamesLoop
    by_cases hf : f.names = []
    · simp only [hf, ↓reduceIte]
      cases i with
      | zero => simp [namedField, hf, NewIdents]
      | succ j =>
        simp only [List.getElem?_cons_succ, List.take_succ_cons]
        rw [ih, List.countP_cons_of_pos]
        · rw [Nat.add_right_comm, Nat.add_assoc]
        · simp [hf]
    · simp only [hf, ↓reduceIte]
      cases i with
      | zero => simp [namedField, hf]
      | succ j =>
        simp only [List.getElem?_cons_succ, List.take_succ_cons]
        rw [ih, List.countP_cons_of_neg]
        simp [hf]

theorem setDefaultNamesLoop_count (fields : List Field) (index : Nat) :
    (setDefaultNamesLoop index fields).2 =
      index + fields.countP (fun g => decide (g.names = [])) := by
  induction fields generalizing index with
  | nil => simp [setDefaultNamesLoop]
  | cons f fs ih =>
    unfold setDefaultNamesLoop
    by_cases hf : f.names = []
    · simp only [hf, ↓reduceIte]
      rw [ih, List.countP_cons_of_pos]
      · omega
      · simp [hf]
    · simp only [hf, ↓reduceIte]
      rw [ih, List.countP_cons_of_neg]
      simp [hf]

theorem setDefaultNamesLoop_length (fields : List Field) (index : Nat) :
    (setDefaultNamesLoop index fields).1.length = fields.length := by
  induction fields generalizing index with
  | nil => simp [setDefaultNamesLoop]
  | cons f fs ih =>
    unfold setDefaultNamesLoop
    by_cases hf : f.names = [] <;> simp [hf, ih]

theorem namedField_names_ne_nil (k : Nat) (field : Field) : (namedField k field).names ≠ [] := by
  unfold namedField
  by_cases hf : field.names = [] <;> simp [hf]

/-- After `SetDefaultNames` every field has a name. -/
theorem SetDefaultNames_all_named (fields : List Field) :
    ∀ f ∈ (SetDefaultNames fields).1, f.names ≠ [] := by
  intro f hf
  obtain ⟨i, hi, hget⟩ := List.getElem_of_mem hf
  have h := setDefaultNamesLoop_get fields 0 i
  have hi2 : i < (setDefaultNamesLoop 0 fields).1.length := hi
  rw [List.getElem?_eq_getElem hi2] at h
  have hlen := setDefaultNamesLoop_length fields 0
  have hi3 : i < fields.length := by omega
  rw [List.getElem?_eq_getElem hi3] at h
  simp only [Option.map_some', Option.some.injEq] at h
  have hget2 : (setDefaultNamesLoop 0 fields).1[i] = f := hget
  rw [← hget2, h]
  exact namedField_names_ne_nil _ _

/-- C10: `SetDefaultNames` keeps the number and order of the fields; the field at
position `i` keeps its type, keeps its names if it has any, and otherwise gets the
single name `_k`, where `k` counts the anonymous fields before position `i` in this
call; afterwards every field has a name; the result is `true` exactly when some field
was anonymous.  The anonymous list `(int, string, string, bool)` gets `_0, _1, _2, _3`. -/
theorem SetDefaultNames_spec (fields : List Field) :
    (SetDefaultNames fields).1.length = fields.length ∧
    (∀ i, (SetDefaultNames fields).1[i]? =
      fields[i]?.map (fun field =>
        if field.names = [] then
          Field.mk [Ident.mk ("_" ++
            toString ((fields.take i).countP (fun g => decide (g.names = []))))] field.type
        else field)) ∧
    (∀ f ∈ (SetDefaultNames fields).1, f.names ≠ []) ∧
    ((SetDefaultNames fields).2 = true ↔ ∃ f ∈ fields, f.names = []) ∧
    SetDefaultNames [Field.mk [] (.ident "int"), Field.mk [] (.ident "string"),
        Field.mk [] (.ident "string"), Field.mk [] (.ident "bool")] =
      ([Field.mk [Ident.mk "_0"] (.ident "int"), Field.mk [Ident.mk "_1"] (.ident "string"),
        Field.mk [Ident.mk "_2"] (.ident "string"), Field.mk [Ident.mk "_3"] (.ident "bool")],
        true) := by
  refine ⟨setDefaultNamesLoop_length fields 0, ?_, SetDefaultNames_all_named fields, ?_, by decide⟩
  · intro i
    have h := setDefaultNamesLoop_get fields 0 i
    simp only [Nat.zero_add] at h
    simp only [SetDefaultNames]
    rw [h]
    congr 1
  · simp only [SetDefaultNames, setDefaultNamesLoop_count, Nat.zero_add, decide_eq_true_eq]
    rw [gt_iff_lt, List.countP_pos_iff]
    simp

/-! ## The walk (C5, C6) -/

theorem overwriteStep_unmarked (env : Env) (filepath : String) (s : Progress) (node : Node)
    (h : ∀ d, node = .funcDecl d → d.marked = false) :
    overwriteStep env filepath s node = .ok (node, s, true) := by
  unfold overwriteStep
  rw [Handle_unmarked env ⟨filepath, node, AddNamedImport⟩ s.imports h]
  simp

/-- The callback on a marked declaration, when it returns. -/
theorem overwriteStep_marked (env : Env) (filepath : String) (s : Progress) (d : FuncDecl)
    (hm : d.marked = true) (node : Node) (s2 : Progress) (go : Bool)
    (h : overwriteStep env filepath s (.funcDecl d) = .ok (node, s2, go)) :
    go = true ∧ s2.modified = true ∧
      ∃ decl2, node = decl2.toNode ∧ Rewritten env filepath (.funcDecl d) decl2 := by
  unfold overwriteStep at h
  rw [Handle_marked env ⟨filepath, .funcDecl d, AddNamedImport⟩ s.imports d rfl hm] at h
  cases hl : getFuncDeclName env d with
  | error fault => rw [hl] at h; simp at h
  | ok label =>
    rw [hl] at h
    simp only at h
    cases hf : env.parseExpr (selectorText filepath (ctxBound d)) with
    | error e => rw [hf] at h; simp at h
    | ok fn =>
      rw [hf] at h
      cases hb : d.body with
      | none => rw [hb] at h; simp at h
      | some body =>
        rw [hb] at h
        simp only [↓reduceIte, Except.ok.injEq, Prod.mk.injEq] at h
        obtain ⟨h1, h2, h3⟩ := h
        refine ⟨h3.symm, by rw [← h2], Decl.funcDecl _, h1.symm, ?_⟩
        simp only [Rewritten, hm, ↓reduceIte]
        exact ⟨label, fn, body, hl, hf, hb, rfl⟩

theorem fieldListNodes_other (fl : Option FieldList) :
    ∀ n ∈ fieldListNodes fl, ∃ k, n = Node.other k := by
  intro n hn
  cases fl with
  | none => simp [fieldListNodes] at hn
  | some fl =>
    simp only [fieldListNodes, List.mem_append, List.mem_flatten, List.mem_map,
      List.mem_singleton] at hn
    rcases hn with ⟨l, ⟨field, _, rfl⟩, hl⟩ | rfl
    · simp only [List.mem_append, List.mem_map, List.mem_cons, List.mem_singleton] at hl
      rcases hl with ⟨_, _, rfl⟩ | rfl | rfl | hfalse
      · exact ⟨_, rfl⟩
      · exact ⟨_, rfl⟩
      · exact ⟨_, rfl⟩
      · cases hfalse
    · exact ⟨_, rfl⟩

theorem innerNodes_other (decl : Decl) : ∀ n ∈ innerNodes decl, ∃ k, n = Node.other k := by
  intro n hn
  cases decl with
  | genDecl src => simp [innerNodes] at hn
  | funcDecl d =>
    simp only [innerNodes, List.mem_append, List.mem_singleton] at hn
    rcases hn with (((hdoc | hrecv) | rfl) | ((hp | hr) | rfl)) | hbody
    · cases hd : d.doc with
      | none => rw [hd] at hdoc; simp at hdoc
      | some g =>
        rw [hd] at hdoc
        simp only [List.mem_append, List.mem_map, List.mem_singleton] at hdoc
        rcases hdoc with ⟨_, _, rfl⟩ | rfl <;> exact ⟨_, rfl⟩
    · exact fieldListNodes_other _ n hrecv
    · exact ⟨_, rfl⟩
    · exact fieldListNodes_other _ n hp
    · exact fieldListNodes_other _ n hr
    · exact ⟨_, rfl⟩
    · cases hb : d.body with
      | none => rw [hb] at hbody; simp at hbody
      | some b =>
        rw [hb] at hbody
        simp only [List.mem_append, List.mem_map, List.mem_singleton] at hbody
        rcases hbody with ⟨_, _, rfl⟩ | rfl <;> exact ⟨_, rfl⟩

theorem applyNodes_other (env : Env) (filepath : String) (s : Progress) (ns : List Node)
    (h : ∀ n ∈ ns, ∃ k, n = Node.other k) :
    applyNodes (overwriteStep env filepath) s ns = .ok ⟨s, false⟩ := by
  induction ns with
  | nil => rfl
  | cons n ns ih =>
    obtain ⟨k, rfl⟩ := h n (List.mem_cons_self _ _)
    unfold applyNodes
    rw [overwriteStep_unmarked env filepath s (.other k) (by intro d hd; cases hd)]
    exact ih (fun m hm => h m (List.mem_cons_of_mem _ hm))

/-- The walk over the declarations, when it returns: it did not stop, every
declaration is rewritten or kept, and the flag is set exactly when it was set before
or a declaration is marked. -/
theorem applyDecls_spec (env : Env) (filepath : String) (decls : List Decl) :
    ∀ (s : Progress) (decls2 : List Decl) (walk : Walk Progress),
      applyDecls (overwriteStep env filepath) s decls = .ok (decls2, walk) →
      walk.stopped = false ∧ List.Forall₂ (Rewritten env filepath) decls decls2 ∧
      walk.state.modified = (s.modified || decls.any Decl.marked) ∧
      (decls.any Decl.marked = false → decls2 = decls ∧ walk.state = s) := by
  induction decls with
  | nil =>
    intro s decls2 walk h
    simp only [applyDecls, Except.ok.injEq, Prod.mk.injEq] at h
    obtain ⟨rfl, rfl⟩ := h
    simp
  | cons decl decls ih =>
    intro s decls2 walk h
    unfold applyDecls at h
    rw [applyNodes_other env filepath s _ (innerNodes_other decl)] at h
    simp only at h
    cases hmk : decl.marked with
    | false =>
      have hstep : overwriteStep env filepath s decl.toNode = .ok (decl.toNode, s, true) := by
        apply overwriteStep_unmarked
        intro d hd
        cases decl with
        | genDecl src => cases hd
        | funcDecl d0 =>
          simp only [Decl.toNode, Node.funcDecl.injEq] at hd
          subst hd
          exact hmk
      rw [hstep] at h
      simp only at h
      cases hrest : applyDecls (overwriteStep env filepath) s decls with
      | error fault => rw [hrest] at h; simp at h
      | ok r =>
        obtain ⟨rest, walk2⟩ := r
        rw [hrest] at h
        simp only [Except.ok.injEq, Prod.mk.injEq] at h
        obtain ⟨rfl, rfl⟩ := h
        obtain ⟨h1, h2, h3, h4⟩ := ih s rest walk2 hrest
        have hupd : decl.update decl.toNode = decl := by
          cases decl <;> rfl
        have hrw : Rewritten env filepath decl decl := by
          cases decl with
          | genDecl src => simp [Rewritten]
          | funcDecl d0 =>
            have : d0.marked = false := hmk
            simp [Rewritten, this]
        refine ⟨h1, ?_, ?_, ?_⟩
        · rw [hupd]
          exact List.Forall₂.cons hrw h2
        · simp [h3, hmk]
        · intro hany
          simp only [List.any_cons, hmk, Bool.false_or] at hany
          obtain ⟨h5, h6⟩ := h4 hany
          rw [hupd, h5]
          exact ⟨rfl, h6⟩
    | true =>
      cases decl with
      | genDecl src => cases hmk
      | funcDecl d0 =>
        have hm0 : d0.marked = true := hmk
        simp only [Decl.toNode] at h
        cases hstep : overwriteStep env filepath s (.funcDecl d0) with
        | error fault => rw [hstep] at h; simp at h
        | ok r =>
          obtain ⟨node, s2, go⟩ := r
          obtain ⟨hgo, hmod, decl2, hnode, hrw⟩ :=
            overwriteStep_marked env filepath s d0 hm0 node s2 go hstep
          subst hgo
          rw [hstep] at h
          simp only at h
          cases hrest : applyDecls (overwriteStep env filepath) s2 decls with
          | error fault => rw [hrest] at h; simp at h
          | ok r2 =>
            obtain ⟨rest, walk2⟩ := r2
            rw [hrest] at h
            simp only [Except.ok.injEq, Prod.mk.injEq] at h
            obtain ⟨rfl, rfl⟩ := h
            obtain ⟨h1, h2, h3, _⟩ := ih s2 rest walk2 hrest
            have hupd : (Decl.funcDecl d0).update node = decl2 := by
              rw [hnode]
              cases decl2 with
              | funcDecl d2 => rfl
              | genDecl src =>
                simp only [Rewritten, hm0, ↓reduceIte] at hrw
                obtain ⟨_, _, _, _, _, _, hh⟩ := hrw
                cases hh
            refine ⟨h1, ?_, ?_, ?_⟩
            · rw [hupd]
              exact List.Forall₂.cons hrw h2
            · simp [h3, hmod, hmk]
            · intro hany
              simp [hmk] at hany

/-- The whole of `Overwrite`, when it returns. -/
theorem Overwrite_spec (env : Env) (filepath : String) (file file2 : File) (modified : Bool)
    (h : Overwrite env filepath file = .ok (file2, modified)) :
    List.Forall₂ (Rewritten env filepath) file.decls file2.decls ∧
      modified = file.decls.any Decl.marked ∧
      (file.decls.any Decl.marked = false → file2 = file) := by
  unfold Overwrite Apply at h
  rw [applyNodes_other env filepath _ _ (by
    intro n hn
    simp only [List.mem_singleton] at hn
    exact ⟨_, hn⟩)] at h
  simp only at h
  cases hd : applyDecls (overwriteStep env filepath) ⟨file.imports, false⟩ file.decls with
  | error fault => rw [hd] at h; simp at h
  | ok r =>
    obtain ⟨decls2, walk⟩ := r
    obtain ⟨h1, h2, h3, h4⟩ := applyDecls_spec env filepath file.decls _ decls2 walk hd
    rw [hd] at h
    obtain ⟨st, stopped⟩ := walk
    simp only at h1
    subst h1
    simp only at h
    rw [applyNodes_other env filepath _ _ (by
      intro n hn
      simp only [List.mem_singleton] at hn
      exact ⟨_, hn⟩)] at h
    simp only [Except.ok.injEq, Prod.mk.injEq] at h
    obtain ⟨rfl, rfl⟩ := h
    refine ⟨h2, by simpa using h3, ?_⟩
    intro hany
    obtain ⟨h5, h6⟩ := h4 hany
    simp only at h6
    rw [h5, h6]

/-- A file without a marked declaration is returned as it is, with `false`. -/
theorem Overwrite_unmarked (env : Env) (filepath : String) (file : File)
    (h : file.decls.any Decl.marked = false) :
    Overwrite env filepath file = .ok (file, false) := by
  have hd : ∀ (s : Progress) (decls : List Decl), decls.any Decl.marked = false →
      applyDecls (overwriteStep env filepath) s decls = .ok (decls, ⟨s, false⟩) := by
    intro s decls
    induction decls with
    | nil => intro _; rfl
    | cons decl decls ih =>
      intro hany
      simp only [List.any_cons, Bool.or_eq_false_iff] at hany
      unfold applyDecls
      rw [applyNodes_other env filepath s _ (innerNodes_other decl)]
      simp only
      rw [overwriteStep_unmarked env filepath s decl.toNode (by
        intro d hdd
        cases decl with
        | genDecl src => cases hdd
        | funcDecl d0 =>
          simp only [Decl.toNode, Node.funcDecl.injEq] at hdd
          subst hdd
          exact hany.1)]
      simp only
      rw [ih hany.2]
      cases decl <;> rfl
  unfold Overwrite Apply
  rw [applyNodes_other env filepath _ _ (by
    intro n hn
    simp only [List.mem_singleton] at hn
    exact ⟨_, hn⟩)]
  simp only
  rw [hd _ _ h]
  simp only
  rw [applyNodes_other env filepath _ _ (by
    intro n hn
    simp only [List.mem_singleton] at hn
    exact ⟨_, hn⟩)]

/-- C5: when `Overwrite` returns, that is when no call of the handler fails, it
returns `true` exactly when the file has a function declaration carrying the marker
`@Log()`; a file without one is returned unchanged, with `false`. -/
theorem Overwrite_modified_iff (env : Env) (filepath : String) (file file2 : File)
    (modified : Bool) (h : Overwrite env filepath file = .ok (file2, modified)) :
    (modified = true ↔ ∃ d, Decl.funcDecl d ∈ file.decls ∧ d.marked = true) ∧
    ((∀ d, Decl.funcDecl d ∈ file.decls → d.marked = false) →
      file2 = file ∧ modified = false) := by
  obtain ⟨_, h2, h3⟩ := Overwrite_spec env filepath file file2 modified h
  constructor
  · rw [h2, List.any_eq_true]
    constructor
    · rintro ⟨decl, hmem, hmk⟩
      cases decl with
      | genDecl src => cases hmk
      | funcDecl d => exact ⟨d, hmem, hmk⟩
    · rintro ⟨d, hmem, hmk⟩
      exact ⟨_, hmem, hmk⟩
  · intro hno
    have hany : file.decls.any Decl.marked = false := by
      rw [List.any_eq_false]
      intro decl hmem
      cases decl with
      | genDecl src => simp [Decl.marked]
      | funcDecl d => simp [Decl.marked, hno d hmem]
    exact ⟨h3 hany, by rw [h2, hany]⟩

/-- C5, witness: `testdata/main.go`, where `fn` carries the marker. -/
theorem Overwrite_modified_iff_witness :
    (∃ file2, Overwrite sampleEnv "testdata/main.go" sampleFile = .ok (file2, true)) ∧
    ∃ d, Decl.funcDecl d ∈ sampleFile.decls ∧ d.marked = true :=
  ⟨⟨_, rfl⟩,
    ((Overwrite_modified_iff sampleEnv "testdata/main.go" sampleFile _ true rfl).1).mp rfl⟩

/-- C6: when `Overwrite` returns, the file has as many declarations as before, in the
same places; every marked function declaration is rewritten (its comment list is
empty, it no longer carries the marker, and its body is its own entry statement and
deferred exit statement followed by its former statements), also when marked
declarations came before it, and every other declaration is as it was. -/
theorem Overwrite_rewrites_every_marked (env : Env) (filepath : String) (file file2 : File)
    (modified : Bool) (h : Overwrite env filepath file = .ok (file2, modified)) :
    file2.decls.length = file.decls.length ∧
    ∀ (i : Nat) (decl : Decl), file.decls[i]? = some decl →
      ∃ decl2 : Decl, file2.decls[i]? = some decl2 ∧
        (decl.marked = false → decl2 = decl) ∧
        (∀ d : FuncDecl, decl = .funcDecl d → d.marked = true →
          ∃ (d2 : FuncDecl) (label : String) (fn : Expr) (body : BlockStmt),
            decl2 = .funcDecl d2 ∧ d2.doc = some ⟨[]⟩ ∧
            d2.marked = false ∧ d.body = some body ∧
            d2.body = some ⟨entryStmt env d label fn :: exitStmt env d label fn :: body.list⟩ ∧
            getFuncDeclName env d = .ok label ∧
            env.parseExpr (selectorText filepath (ctxBound d)) = .ok fn) := by
  obtain ⟨h1, _, _⟩ := Overwrite_spec env filepath file file2 modified h
  refine ⟨(List.Forall₂.length_eq h1).symm, ?_⟩
  intro i decl hget
  have hi : i < file.decls.length := by
    rcases Nat.lt_or_ge i file.decls.length with hlt | hge
    · exact hlt
    · rw [List.getElem?_eq_none hge] at hget
      cases hget
  have hi2 : i < file2.decls.length := by
    rw [← List.Forall₂.length_eq h1]
    exact hi
  have hrw : Rewritten env filepath file.decls[i] file2.decls[i] :=
    (List.forall₂_iff_get.mp h1).2 i hi hi2
  rw [List.getElem?_eq_getElem hi, Option.some.injEq] at hget
  rw [hget] at hrw
  refine ⟨file2.decls[i], List.getElem?_eq_getElem hi2, ?_, ?_⟩
  · intro hmk
    cases decl with
    | genDecl src => simpa [Rewritten] using hrw
    | funcDecl d =>
      have : d.marked = false := hmk
      simpa [Rewritten, this] using hrw
  · intro d hd hmk
    subst hd
    simp only [Rewritten, hmk, ↓reduceIte] at hrw
    obtain ⟨label, fn, body, hl, hf, hb, hd2⟩ := hrw
    have hdoc : ∃ g, d.doc = some g := by
      unfold FuncDecl.marked at hmk
      cases hdd : d.doc with
      | none => rw [hdd] at hmk; simp at hmk
      | some g => exact ⟨g, rfl⟩
    obtain ⟨g, hg⟩ := hdoc
    refine ⟨_, label, fn, body, hd2, by simp [prepared, hg], ?_, hb, rfl, hl, hf⟩
    simp only [FuncDecl.marked, prepared, hg, Option.map_some']
    decide

/-- C6, witness: a file with two marked declarations, `fn` first and the method
`Bar` last; both are rewritten, the two declarations between them are kept. -/
theorem Overwrite_rewrites_every_marked_witness :
    (∃ file2, Overwrite sampleEnv "testdata/main.go" sampleTwoMarked = .ok (file2, true) ∧
      file2.decls.length = sampleTwoMarked.decls.length ∧
      ∀ (i : Nat) (decl : Decl), sampleTwoMarked.decls[i]? = some decl →
        ∃ decl2 : Decl, file2.decls[i]? = some decl2 ∧
          (decl.marked = false → decl2 = decl) ∧
          (∀ d : FuncDecl, decl = .funcDecl d → d.marked = true →
            ∃ (d2 : FuncDecl) (label : String) (fn : Expr) (body : BlockStmt),
              decl2 = .funcDecl d2 ∧ d2.doc = some ⟨[]⟩ ∧
              d2.marked = false ∧ d.body = some body ∧
              d2.body = some ⟨entryStmt sampleEnv d label fn ::
                exitStmt sampleEnv d label fn :: body.list⟩ ∧
              getFuncDeclName sampleEnv d = .ok label ∧
              sampleEnv.parseExpr (selectorText "testdata/main.go" (ctxBound d)) = .ok fn)) ∧
    sampleFn.marked = true ∧ sampleMethod.marked = true ∧ sampleMain.marked = false :=
  ⟨⟨_, rfl,
    Overwrite_rewrites_every_marked sampleEnv "testdata/main.go" sampleTwoMarked _ true rfl⟩,
    by decide, by decide, by decide⟩

/-! ## Default names do not collide (C11) -/

/-- The character of a decimal digit stands for that digit. -/
theorem digitChar_value : ∀ m, m < 10 → (Nat.digitChar m).toNat - 48 = m := by
  decide

theorem decimalValue_snoc (cs : List Char) (c : Char) :
    decimalValue (cs ++ [c]) = 10 * decimalValue cs + (c.toNat - 48) := by
  simp [decimalValue, List.foldl_append]

/-- With enough fuel `toDigitsCore` puts the decimal digits of `n` in front of the
accumulator. -/
theorem toDigitsCore_value (fuel n : Nat) (acc : List Char) (hfuel : n < fuel) :
    ∃ ds : List Char, Nat.toDigitsCore 10 fuel n acc = ds ++ acc ∧ decimalValue ds = n := by
  induction fuel generalizing n acc with
  | zero => omega
  | succ fuel ih =>
    have hdigit := digitChar_value (n % 10) (Nat.mod_lt _ (by decide))
    unfold Nat.toDigitsCore
    by_cases hlast : n / 10 = 0
    · refine ⟨[Nat.digitChar (n % 10)], by simp [hlast], ?_⟩
      simp only [decimalValue, List.foldl_cons, List.foldl_nil]
      omega
    · have hsmall : n / 10 < fuel := by omega
      rcases ih (n / 10) (Nat.digitChar (n % 10) :: acc) hsmall with ⟨front, hfront, hval⟩
      have hvalue : decimalValue (front ++ [Nat.digitChar (n % 10)]) = n := by
        rw [decimalValue_snoc, hval]
        omega
      exact ⟨front ++ [Nat.digitChar (n % 10)], by simp [hlast, hfront], hvalue⟩

theorem decimalValue_toString (n : Nat) : decimalValue (toString n).data = n := by
  obtain ⟨ds, hds, hval⟩ := toDigitsCore_value (n + 1) n [] (Nat.lt_succ_self n)
  have : (toString n).data = ds := by
    show (Nat.repr n).data = ds
    unfold Nat.repr Nat.toDigits
    rw [hds]
    simp [List.asString]
  rw [this, hval]

/-- The default names `_0`, `_1`, ... are different for different numbers. -/
theorem defaultName_inj (j k : Nat) (h : "_" ++ toString j = "_" ++ toString k) : j = k := by
  have hd : ("_" ++ toString j).data = ("_" ++ toString k).data := by rw [h]
  simp only [String.data_append] at hd
  have htail : (toString j).data = (toString k).data := List.append_cancel_left hd
  rw [← decimalValue_toString j, ← decimalValue_toString k, htail]

theorem GetFieldNames_foldl (fields : List Field) (acc : List String) :
    fields.foldl (fun names field => names ++ GetIdentNames field.names) acc =
      acc ++ flatNames fields := by
  induction fields generalizing acc with
  | nil => simp [flatNames]
  | cons f fs ih =>
    rw [List.foldl_cons, ih]
    simp [flatNames, GetIdentNames, List.append_assoc]

/-- The function `GetFieldNames` flattens the names of the fields. -/
theorem GetFieldNames_eq (fields : List Field) : GetFieldNames fields = flatNames fields := by
  unfold GetFieldNames
  rw [GetFieldNames_foldl]
  simp

theorem flatNames_cons (f : Field) (fs : List Field) :
    flatNames (f :: fs) = f.names.map Ident.name ++ flatNames fs := by
  simp [flatNames]

/-- A name after the loop is a declared name or one of the names handed out. -/
theorem setDefaultNamesLoop_mem (fields : List Field) :
    ∀ (index : Nat) (n : String), n ∈ flatNames (setDefaultNamesLoop index fields).1 →
      n ∈ flatNames fields ∨
        ∃ k, index ≤ k ∧ k < index + anonymousCount fields ∧ n = "_" ++ toString k := by
  induction fields with
  | nil => intro index n hn; simp [setDefaultNamesLoop, flatNames] at hn
  | cons f fs ih =>
    intro index n hn
    unfold setDefaultNamesLoop at hn
    by_cases hf : f.names = []
    · simp only [hf, ↓reduceIte, flatNames_cons, NewIdents, List.map_cons, List.map_nil,
        List.singleton_append, List.mem_cons] at hn
      have hc : anonymousCount (f :: fs) = anonymousCount fs + 1 := by
        simp [anonymousCount, hf]
      rcases hn with rfl | hn
      · exact Or.inr ⟨index, Nat.le_refl _, by omega, rfl⟩
      · rcases ih (index + 1) n hn with h | ⟨k, h1, h2, h3⟩
        · exact Or.inl (by simp [flatNames_cons, hf, h])
        · exact Or.inr ⟨k, by omega, by omega, h3⟩
    · simp only [hf, ↓reduceIte, flatNames_cons, List.mem_append] at hn
      have hc : anonymousCount (f :: fs) = anonymousCount fs := by
        simp [anonymousCount, hf]
      rcases hn with hn | hn
      · exact Or.inl (by simp only [flatNames_cons, List.mem_append]; exact Or.inl hn)
      · rcases ih index n hn with h | ⟨k, h1, h2, h3⟩
        · exact Or.inl (by simp only [flatNames_cons, List.mem_append]; exact Or.inr h)
        · exact Or.inr ⟨k, h1, by omega, h3⟩

/-- The names after the loop are pairwise distinct when the declared names are and
none of them is a name the loop hands out. -/
theorem setDefaultNamesLoop_nodup (fields : List Field) :
    ∀ (index : Nat), (flatNames fields).Nodup →
      (∀ k, index ≤ k → k < index + anonymousCount fields →
        ("_" ++ toString k) ∉ flatNames fields) →
      (flatNames (setDefaultNamesLoop index fields).1).Nodup := by
  induction fields with
  | nil => intro index _ _; simp [setDefaultNamesLoop, flatNames]
  | cons f fs ih =>
    intro index hd hfree
    unfold setDefaultNamesLoop
    by_cases hf : f.names = []
    · have hc : anonymousCount (f :: fs) = anonymousCount fs + 1 := by
        simp [anonymousCount, hf]
      have hnames : flatNames (f :: fs) = flatNames fs := by simp [flatNames_cons, hf]
      rw [hnames] at hd hfree
      simp only [hf, ↓reduceIte, flatNames_cons, NewIdents, List.map_cons, List.map_nil,
        List.singleton_append, List.nodup_cons]
      constructor
      · intro hmem
        rcases setDefaultNamesLoop_mem fs (index + 1) _ hmem with h | ⟨k, h1, _, h3⟩
        · exact hfree index (Nat.le_refl _) (by omega) h
        · have := defaultName_inj index k h3
          omega
      · exact ih (index + 1) hd (fun k h1 h2 => hfree k (by omega) (by omega))
    · have hc : anonymousCount (f :: fs) = anonymousCount fs := by
        simp [anonymousCount, hf]
      rw [flatNames_cons] at hd hfree
      rw [hc] at hfree
      simp only [hf, ↓reduceIte, flatNames_cons]
      rw [List.nodup_append] at hd ⊢
      obtain ⟨hd1, hd2, hdisj⟩ := hd
      refine ⟨hd1, ih index hd2 (fun k h1 h2 hm => hfree k h1 h2
        (List.mem_append.mpr (Or.inr hm))), ?_⟩
      intro n hn1 hn2
      rcases setDefaultNamesLoop_mem fs index n hn2 with h | ⟨k, h1, h2, h3⟩
      · exact hdisj hn1 h
      · subst h3
        exact hfree k h1 h2 (List.mem_append.mpr (Or.inl hn1))

/-- C11, as amended: for every field list whose declared names are pairwise distinct
and none of whose declared names is one of the names `_k` that `SetDefaultNames` hands
out (`k` below the number of anonymous fields), the full name list after
`SetDefaultNames`, as `getFieldListNames` returns it, is pairwise distinct: no
synthesized name equals another synthesized name or a declared name. -/
theorem default_names_do_not_collide (fields : List Field)
    (hd : (flatNames fields).Nodup)
    (hfree : ∀ k, k < anonymousCount fields → ("_" ++ toString k) ∉ flatNames fields) :
    (getFieldListNames (some ⟨fields⟩)).2.Nodup ∧
    (getFieldListNames (some ⟨fields⟩)).2 = flatNames (SetDefaultNames fields).1 := by
  have heq : (getFieldListNames (some ⟨fields⟩)).2 = flatNames (SetDefaultNames fields).1 := by
    simp only [getFieldListNames]
    exact GetFieldNames_eq _
  refine ⟨?_, heq⟩
  rw [heq]
  exact setDefaultNamesLoop_nodup fields 0 hd
    (fun k _ h2 => hfree k (by simpa using h2))

/-- C11, witness: the anonymous result list `(int, string, string)` of `fn` in
`testdata/main.go`. -/
theorem default_names_do_not_collide_witness :
    (getFieldListNames (some ⟨[Field.mk [] (.ident "int"), Field.mk [] (.ident "string"),
      Field.mk [] (.ident "string")]⟩)).2.Nodup ∧
    (getFieldListNames (some ⟨[Field.mk [] (.ident "int"), Field.mk [] (.ident "string"),
      Field.mk [] (.ident "string")]⟩)).2 = ["_0", "_1", "_2"] :=
  ⟨(default_names_do_not_collide
      [Field.mk [] (.ident "int"), Field.mk [] (.ident "string"), Field.mk [] (.ident "string")]
      (by decide) (by intro k _; simp [flatNames])).1, by decide⟩

/-- C11, counterexample: in the field list `(_0 int, string)` the one declared name is
trivially distinct, but the anonymous field gets the name `_0` too: the names after
`SetDefaultNames` are `_0, _0`. -/
theorem default_name_collides_with_declared :
    (flatNames [Field.mk [Ident.mk "_0"] (.ident "int"), Field.mk [] (.ident "string")]).Nodup ∧
    (getFieldListNames (some ⟨[Field.mk [Ident.mk "_0"] (.ident "int"),
      Field.mk [] (.ident "string")]⟩)).2 = ["_0", "_0"] ∧
    ¬ (getFieldListNames (some ⟨[Field.mk [Ident.mk "_0"] (.ident "int"),
      Field.mk [] (.ident "string")]⟩)).2.Nodup := by
  refine ⟨by decide, by decide, by decide⟩

/-! ## Labels and names in the two calls (C12, C13) -/

/-- The arguments `genLogArgs` returns: the quoted format, then the names. -/
theorem genLogArgs_eq (env : Env) (formatPrefix : String) (args : List String) :
    genLogArgs env formatPrefix args =
      strconvQuote env.printable (formatPrefix ++ formatSuffix args.length) :: args := by
  cases args with
  | nil => rfl
  | cons a l =>
    unfold genLogArgs formatSuffix
    rw [if_neg (by simp), if_neg (by simp), List.length_cons, placeholders_eq]

theorem entryStmt_eq (env : Env) (d : FuncDecl) (label : String) (fn : Expr) :
    entryStmt env d label fn =
      .exprStmt (.call fn (.ident (entryFormat env label (printedParams d).length) ::
        (printedParams d).map Expr.ident)) := by
  simp [entryStmt, genBeforeLogArgs, genLogArgs_eq, entryFormat]

theorem exitStmt_eq (env : Env) (d : FuncDecl) (label : String) (fn : Expr) :
    exitStmt env d label fn =
      .deferStmt (.call (.funcLit ⟨none, none⟩
        [.exprStmt (.call fn (.ident (exitFormat env label (resultNames d).length) ::
          (resultNames d).map Expr.ident))]) []) := by
  simp [exitStmt, genAfterLogArgs, genLogArgs_eq, exitFormat]

/-- The names `getFieldListNames` returns are the names of the list it leaves. -/
theorem getFieldListNames_names (fieldList : Option FieldList) :
    (getFieldListNames fieldList).2 = fieldNames (getFieldListNames fieldList).1 := by
  cases fieldList with
  | none => rfl
  | some fl => simp [getFieldListNames, fieldNames, GetFieldNames_eq]

/-- C12: `getFuncDeclName` returns the name of a function without receiver, and
`T.MethodName` for a method whose receiver type is the type name `T` or the pointer
type `*T`; and when `Handle` reports a modification, this one label stands in the
entry format string `#<label> start, params: ...` and in the exit format string
`#<label> end, results: ...`. -/
theorem getFuncDeclName_labels (env : Env) :
    (∀ d : FuncDecl, d.recv = none → getFuncDeclName env d = .ok d.name) ∧
    (∀ (d : FuncDecl) (names : List Ident) (T : String) (rest : List Field),
      d.recv = some ⟨⟨names, .ident T⟩ :: rest⟩ →
        getFuncDeclName env d = .ok (T ++ "." ++ d.name)) ∧
    (∀ (d : FuncDecl) (names : List Ident) (T : String) (rest : List Field),
      d.recv = some ⟨⟨names, .star (.ident T)⟩ :: rest⟩ →
        getFuncDeclName env d = .ok (T ++ "." ++ d.name)) ∧
    (∀ (σ : Type) (info : Info σ) (w : σ) (d : FuncDecl) (err : Option String),
      info.node = .funcDecl d → (Handle env info w).ret = .ok (true, err) →
      ∃ (label : String) (fn : Expr) (d2 : FuncDecl) (S : List Stmt),
        getFuncDeclName env d = .ok label ∧ (Handle env info w).node = .funcDecl d2 ∧
        d2.body = some ⟨[
          Stmt.exprStmt (.call fn (.ident (strconvQuote env.printable
              ("#" ++ label ++ " start, params: " ++ formatSuffix (printedParams d).length)) ::
            (printedParams d).map Expr.ident)),
          Stmt.deferStmt (.call (.funcLit ⟨none, none⟩
            [Stmt.exprStmt (.call fn (.ident (strconvQuote env.printable
                ("#" ++ label ++ " end, results: " ++ formatSuffix (resultNames d).length)) ::
              (resultNames d).map Expr.ident))]) [])] ++ S⟩) := by
  refine ⟨?_, ?_, ?_, ?_⟩
  · intro d h
    simp [getFuncDeclName, h]
  · intro d names T rest h
    simp [getFuncDeclName, h, Unparen, sprintTypeExpr]
  · intro d names T rest h
    simp [getFuncDeclName, h, Unparen, sprintTypeExpr]
  · intro σ info w d err hn h
    obtain ⟨d1, label, fn, body, hn1, _, hl, _, _, _, hH⟩ :=
      Handle_success_inv env info w err h
    rw [hn] at hn1
    cases hn1
    refine ⟨label, fn, _, body.list, hl, by rw [hH], ?_⟩
    simp only [entryStmt_eq, exitStmt_eq, entryFormat, exitFormat]

/-- C12, witness: the method `Bar` with receiver `*Foo` gets the label `Foo.Bar` in
both format strings. -/
theorem getFuncDeclName_labels_witness :
    getFuncDeclName sampleEnv sampleMethod = .ok "Foo.Bar" ∧
    (Handle sampleEnv (sampleInfo (.funcDecl sampleMethod)) []).ret = .ok (true, none) ∧
    ∃ (d2 : FuncDecl) (fn : Expr),
      (Handle sampleEnv (sampleInfo (.funcDecl sampleMethod)) []).node = .funcDecl d2 ∧
      d2.body = some ⟨[
        Stmt.exprStmt (.call fn [.ident "\"#Foo.Bar start, params: (void)\""]),
        Stmt.deferStmt (.call (.funcLit ⟨none, none⟩
          [Stmt.exprStmt (.call fn [.ident "\"#Foo.Bar end, results: (void)\""])]) [])]⟩ :=
  ⟨((getFuncDeclName_labels sampleEnv).2.2.1 sampleMethod [Ident.mk "f"] "Foo" [] rfl).trans
      rfl,
    rfl, _, _, rfl, rfl⟩

/-- C13: when `Handle` reports a modification, the identifiers after the format
string of the entry call are the names of the rewritten parameter list, flattened in
declared order, without a leading `ctx`, and those of the exit call are the names of
the rewritten result list, flattened in declared order. -/
theorem Handle_references_names {σ : Type} (env : Env) (info : Info σ) (w : σ)
    (err : Option String) (d : FuncDecl) (hn : info.node = .funcDecl d)
    (h : (Handle env info w).ret = .ok (true, err)) :
    ∃ (d2 : FuncDecl) (fn : Expr) (entryFmt exitFmt : String) (S : List Stmt),
      (Handle env info w).node = .funcDecl d2 ∧ d.body = some ⟨S⟩ ∧
      d2.body = some ⟨[
        Stmt.exprStmt (.call fn (.ident entryFmt ::
          (if (fieldNames d2.type.params).head? = some "ctx"
            then (fieldNames d2.type.params).tail
            else fieldNames d2.type.params).map Expr.ident)),
        Stmt.deferStmt (.call (.funcLit ⟨none, none⟩
          [Stmt.exprStmt (.call fn (.ident exitFmt ::
            (fieldNames d2.type.results).map Expr.ident))]) [])] ++ S⟩ := by
  obtain ⟨d1, label, fn, body, hn1, _, _, _, hb, _, hH⟩ := Handle_success_inv env info w err h
  rw [hn] at hn1
  cases hn1
  refine ⟨_, fn, entryFormat env label (printedParams d).length,
    exitFormat env label (resultNames d).length, body.list, by rw [hH], hb, ?_⟩
  simp only [entryStmt_eq, exitStmt_eq, prepared, ← getFieldListNames_names]
  have hp : printedParams d =
      if (getFieldListNames d.type.params).2.head? = some "ctx"
        then (getFieldListNames d.type.params).2.tail
        else (getFieldListNames d.type.params).2 := by
    simp only [printedParams, ctxBound, paramNames, decide_eq_true_eq, List.drop_one]
  rw [← hp]
  rfl

/-- C13, witness: `fn` of `testdata/main.go`.  The entry call prints `a, b, c, d`
under four placeholders, the exit call `_0, _1, _2` under three, and the results are
renamed `(_0 int, _1 string, _2 string)`, as in `testdata/_gen/main.go`. -/
theorem Handle_references_names_witness :
    (Handle sampleEnv (sampleInfo (.funcDecl sampleFn)) []).ret = .ok (true, none) ∧
    (∃ (d2 : FuncDecl) (fn : Expr) (entryFmt exitFmt : String) (S : List Stmt),
      (Handle sampleEnv (sampleInfo (.funcDecl sampleFn)) []).node = .funcDecl d2 ∧
      sampleFn.body = some ⟨S⟩ ∧
      d2.body = some ⟨[
        Stmt.exprStmt (.call fn (.ident entryFmt ::
          (if (fieldNames d2.type.params).head? = some "ctx"
            then (fieldNames d2.type.params).tail
            else fieldNames d2.type.params).map Expr.ident)),
        Stmt.deferStmt (.call (.funcLit ⟨none, none⟩
          [Stmt.exprStmt (.call fn (.ident exitFmt ::
            (fieldNames d2.type.results).map Expr.ident))]) [])] ++ S⟩) ∧
    ∃ (d2 : FuncDecl) (fn : Expr) (S : List Stmt),
      (Handle sampleEnv (sampleInfo (.funcDecl sampleFn)) []).node = .funcDecl d2 ∧
      d2.type.results = some ⟨[Field.mk [Ident.mk "_0"] (.ident "int"),
        Field.mk [Ident.mk "_1"] (.ident "string"),
        Field.mk [Ident.mk "_2"] (.ident "string")]⟩ ∧
      d2.body = some ⟨[
        Stmt.exprStmt (.call fn [.ident "\"#fn start, params: %+v, %+v, %+v, %+v\"",
          .ident "a", .ident "b", .ident "c", .ident "d"]),
        Stmt.deferStmt (.call (.funcLit ⟨none, none⟩
          [Stmt.exprStmt (.call fn [.ident "\"#fn end, results: %+v, %+v, %+v\"",
            .ident "_0", .ident "_1", .ident "_2"])]) [])] ++ S⟩ :=
  ⟨rfl,
    Handle_references_names sampleEnv (sampleInfo (.funcDecl sampleFn)) [] none sampleFn
      rfl rfl,
    _, _, _, rfl, rfl, rfl⟩

/-! ## The import (C14) -/

/-- On a marked declaration the adder is called, whatever else happens. -/
theorem Handle_marked_world {σ : Type} (env : Env) (info : Info σ) (w : σ) (d : FuncDecl)
    (hn : info.node = .funcDecl d) (hm : d.marked = true) :
    (Handle env info w).world = (info.namedImportAdder "" "logannotation/testdata/log" w).2 := by
  rw [Handle_marked env info w d hn hm]
  cases getFuncDeclName env d with
  | error fault => rfl
  | ok label =>
    simp only
    cases env.parseExpr (selectorText info.filepath (ctxBound d)) with
    | error e => rfl
    | ok fn =>
      simp only
      cases d.body <;> rfl

/-- Adding an import a second time changes nothing. -/
theorem AddNamedImport_idem (name path : String) (imports : List ImportSpec) :
    (AddNamedImport name path (AddNamedImport name path imports).2).2 =
      (AddNamedImport name path imports).2 := by
  unfold AddNamedImport
  by_cases h : ImportSpec.mk name path ∈ imports
  · simp [h]
  · simp [h]

theorem overwriteStep_marked_imports (env : Env) (filepath : String) (s : Progress)
    (d : FuncDecl) (hm : d.marked = true) (node : Node) (s2 : Progress) (go : Bool)
    (h : overwriteStep env filepath s (.funcDecl d) = .ok (node, s2, go)) :
    s2.imports = (AddNamedImport "" "logannotation/testdata/log" s.imports).2 := by
  unfold overwriteStep at h
  dsimp only at h
  have hw := Handle_marked_world env ⟨filepath, .funcDecl d, AddNamedImport⟩ s.imports d rfl hm
  simp only at hw
  cases hr : (Handle env ⟨filepath, .funcDecl d, AddNamedImport⟩ s.imports).ret with
  | error fault => rw [hr] at h; simp at h
  | ok r =>
    obtain ⟨m, e⟩ := r
    rw [hr] at h
    cases e with
    | some err => simp at h
    | none =>
      simp only [Except.ok.injEq, Prod.mk.injEq] at h
      obtain ⟨_, h2, _⟩ := h
      rw [← h2, hw]

/-- The import table after the walk over the declarations: the log import is added
when a declaration is marked, and nothing else changes. -/
theorem applyDecls_imports (env : Env) (filepath : String) (decls : List Decl) :
    ∀ (s : Progress) (decls2 : List Decl) (walk : Walk Progress),
      applyDecls (overwriteStep env filepath) s decls = .ok (decls2, walk) →
      walk.state.imports =
        if decls.any Decl.marked
          then (AddNamedImport "" "logannotation/testdata/log" s.imports).2
          else s.imports := by
  induction decls with
  | nil =>
    intro s decls2 walk h
    simp only [applyDecls, Except.ok.injEq, Prod.mk.injEq] at h
    obtain ⟨_, rfl⟩ := h
    simp
  | cons decl decls ih =>
    intro s decls2 walk h
    unfold applyDecls at h
    rw [applyNodes_other env filepath s _ (innerNodes_other decl)] at h
    simp only at h
    cases hmk : decl.marked with
    | false =>
      have hstep : overwriteStep env filepath s decl.toNode = .ok (decl.toNode, s, true) := by
        apply overwriteStep_unmarked
        intro d hd
        cases decl with
        | genDecl src => cases hd
        | funcDecl d0 =>
          simp only [Decl.toNode, Node.funcDecl.injEq] at hd
          subst hd
          exact hmk
      rw [hstep] at h
      simp only at h
      cases hrest : applyDecls (overwriteStep env filepath) s decls with
      | error fault => rw [hrest] at h; simp at h
      | ok r =>
        obtain ⟨rest, walk2⟩ := r
        rw [hrest] at h
        simp only [Except.ok.injEq, Prod.mk.injEq] at h
        obtain ⟨_, rfl⟩ := h
        rw [ih s rest walk2 hrest]
        simp [hmk]
    | true =>
      cases decl with
      | genDecl src => cases hmk
      | funcDecl d0 =>
        have hm0 : d0.marked = true := hmk
        simp only [Decl.toNode] at h
        cases hstep : overwriteStep env filepath s (.funcDecl d0) with
        | error fault => rw [hstep] at h; simp at h
        | ok r =>
          obtain ⟨node, s2, go⟩ := r
          obtain ⟨hgo, _, _⟩ := overwriteStep_marked env filepath s d0 hm0 node s2 go hstep
          have himp := overwriteStep_marked_imports env filepath s d0 hm0 node s2 go hstep
          subst hgo
          rw [hstep] at h
          simp only at h
          cases hrest : applyDecls (overwriteStep env filepath) s2 decls with
          | error fault => rw [hrest] at h; simp at h
          | ok r2 =>
            obtain ⟨rest, walk2⟩ := r2
            rw [hrest] at h
            simp only [Except.ok.injEq, Prod.mk.injEq] at h
            obtain ⟨_, rfl⟩ := h
            rw [ih s2 rest walk2 hrest, himp, AddNamedImport_idem]
            simp [hmk]

/-- The import table `Overwrite` returns. -/
theorem Overwrite_imports (env : Env) (filepath : String) (file file2 : File) (modified : Bool)
    (h : Overwrite env filepath file = .ok (file2, modified)) :
    file2.imports =
      if modified then (AddNamedImport "" "logannotation/testdata/log" file.imports).2
      else file.imports := by
  obtain ⟨_, hmod, _⟩ := Overwrite_spec env filepath file file2 modified h
  unfold Overwrite Apply at h
  rw [applyNodes_other env filepath _ _ (by
    intro n hn
    simp only [List.mem_singleton] at hn
    exact ⟨_, hn⟩)] at h
  simp only at h
  cases hd : applyDecls (overwriteStep env filepath) ⟨file.imports, false⟩ file.decls with
  | error fault => rw [hd] at h; simp at h
  | ok r =>
    obtain ⟨decls2, walk⟩ := r
    have himp := applyDecls_imports env filepath file.decls _ decls2 walk hd
    obtain ⟨h1, _⟩ := applyDecls_spec env filepath file.decls _ decls2 walk hd
    rw [hd] at h
    obtain ⟨st, stopped⟩ := walk
    simp only at h1
    subst h1
    simp only at h
    rw [applyNodes_other env filepath _ _ (by
      intro n hn
      simp only [List.mem_singleton] at hn
      exact ⟨_, hn⟩)] at h
    simp only [Except.ok.injEq, Prod.mk.injEq] at h
    obtain ⟨rfl, _⟩ := h
    simp only at himp ⊢
    rw [himp, hmod]

/-- C14: on every function declaration that carries the marker `Handle` calls the adder
of imports of its context once, with an empty alias and the path
`logannotation/testdata/log`, in whatever state the adder is, also when the call ends
in an error or a panic; an adder that records its calls has exactly this one call
more.  `Overwrite` gives `Handle` an adder on the import table of the file it walks:
the table it returns is the table of the file with this import added if a declaration
was modified and it was absent, and the table of the file otherwise. -/
theorem Handle_registers_import_once (env : Env) (filepath : String) (d : FuncDecl)
    (hm : d.marked = true) :
    (∀ (σ : Type) (adder : String → String → σ → Bool × σ) (w : σ),
      (Handle env ⟨filepath, .funcDecl d, adder⟩ w).world =
        (adder "" "logannotation/testdata/log" w).2) ∧
    (∀ calls : List (String × String),
      (Handle env ⟨filepath, .funcDecl d, recordAdder⟩ calls).world =
        calls ++ [("", "logannotation/testdata/log")]) ∧
    (∀ (file file2 : File) (modified : Bool),
      Overwrite env filepath file = .ok (file2, modified) →
      file2.imports =
        if modified then (AddNamedImport "" "logannotation/testdata/log" file.imports).2
        else file.imports) := by
  refine ⟨?_, ?_, ?_⟩
  · intro σ adder w
    exact Handle_marked_world env ⟨filepath, .funcDecl d, adder⟩ w d rfl hm
  · intro calls
    exact Handle_marked_world env ⟨filepath, .funcDecl d, recordAdder⟩ calls d rfl hm
  · intro file file2 modified h
    exact Overwrite_imports env filepath file file2 modified h

/-- C14, witness: `fn` of `testdata/main.go`; the import is recorded once, and in the
file, which has it already, the table stays as it is. -/
theorem Handle_registers_import_once_witness :
    sampleFn.marked = true ∧
    (Handle sampleEnv ⟨"testdata/main.go", .funcDecl sampleFn, recordAdder⟩ []).world =
      [("", "logannotation/testdata/log")] ∧
    (Handle sampleEnv ⟨"testdata/main.go", .funcDecl sampleFn, recordAdder⟩
      [("", "logannotation/testdata/log")]).world =
      [("", "logannotation/testdata/log"), ("", "logannotation/testdata/log")] ∧
    ∃ file2, Overwrite sampleEnv "testdata/main.go" sampleTwoMarked = .ok (file2, true) ∧
      file2.imports = [ImportSpec.mk "" "context",
        ImportSpec.mk "" "logannotation/testdata/log"] :=
  ⟨by decide,
    (Handle_registers_import_once sampleEnv "testdata/main.go" sampleFn (by decide)).2.1 [],
    (Handle_registers_import_once sampleEnv "testdata/main.go" sampleFn (by decide)).2.1
      [("", "logannotation/testdata/log")],
    _, rfl, rfl⟩

/-! ## Errors and panics (C15, C19, C20) -/

/-- The function `NewCallExpr` fails exactly when the parser does, with the parser's
error; otherwise the selector as parsed is called with one identifier per argument. -/
theorem NewCallExpr_spec (env : Env) (funcSelector : String) (args : List String) :
    (∀ e, NewCallExpr env funcSelector args = .error e ↔
      env.parseExpr funcSelector = .error e) ∧
    (∀ fn, env.parseExpr funcSelector = .ok fn →
      NewCallExpr env funcSelector args = .ok (.call fn (args.map Expr.ident))) := by
  unfold NewCallExpr
  cases env.parseExpr funcSelector with
  | error e0 => simp
  | ok fn0 => simp

/-- Where the receiver list is not empty, `Handle` returns the error `e` exactly when
the declaration is marked and the parser gives `e` for the composed selector. -/
theorem Handle_error_iff {σ : Type} (env : Env) (info : Info σ) (w : σ) (e : String)
    (hrecv : ∀ d, info.node = .funcDecl d → d.recv ≠ some ⟨[]⟩) :
    (∃ m, (Handle env info w).ret = .ok (m, some e)) ↔
      ∃ d, info.node = .funcDecl d ∧ d.marked = true ∧
        env.parseExpr (selectorText info.filepath (ctxBound d)) = .error e := by
  constructor
  · rintro ⟨m, h⟩
    cases hn : info.node with
    | other k =>
      rw [Handle_unmarked env info w (by intro d hd; rw [hn] at hd; cases hd)] at h
      simp at h
    | funcDecl d =>
      cases hm : d.marked with
      | false =>
        rw [Handle_unmarked env info w (by
          intro d2 hd; rw [hn] at hd; cases hd; exact hm)] at h
        simp at h
      | true =>
        rw [Handle_marked env info w d hn hm] at h
        cases hl : getFuncDeclName env d with
        | error fault => rw [hl] at h; simp at h
        | ok label =>
          rw [hl] at h
          simp only at h
          cases hf : env.parseExpr (selectorText info.filepath (ctxBound d)) with
          | error e0 =>
            rw [hf] at h
            simp only [Except.ok.injEq, Prod.mk.injEq, Option.some.injEq] at h
            exact ⟨d, rfl, hm, by rw [hf, h.2]⟩
          | ok fn =>
            rw [hf] at h
            cases hb : d.body with
            | none => rw [hb] at h; simp at h
            | some body => rw [hb] at h; simp at h
  · rintro ⟨d, hn, hm, hf⟩
    obtain ⟨label, hl⟩ := getFuncDeclName_ok env d (hrecv d hn)
    rw [Handle_marked env info w d hn hm, hl]
    simp only
    rw [hf]
    exact ⟨false, rfl⟩

/-- Where a marked declaration has a body and no empty receiver list, `Handle`
returns. -/
theorem Handle_returns {σ : Type} (env : Env) (info : Info σ) (w : σ)
    (hd : ∀ d, info.node = .funcDecl d → d.marked = true →
      d.body ≠ none ∧ d.recv ≠ some ⟨[]⟩) :
    ∃ m e, (Handle env info w).ret = .ok (m, e) := by
  cases hn : info.node with
  | other k =>
    rw [Handle_unmarked env info w (by intro d hd; rw [hn] at hd; cases hd)]
    exact ⟨_, _, rfl⟩
  | funcDecl d =>
    cases hm : d.marked with
    | false =>
      rw [Handle_unmarked env info w (by intro d2 hd2; rw [hn] at hd2; cases hd2; exact hm)]
      exact ⟨_, _, rfl⟩
    | true =>
      obtain ⟨hb, hr⟩ := hd d hn hm
      obtain ⟨label, hl⟩ := getFuncDeclName_ok env d hr
      rw [Handle_marked env info w d hn hm, hl]
      simp only
      cases env.parseExpr (selectorText info.filepath (ctxBound d)) with
      | error e0 => exact ⟨_, _, rfl⟩
      | ok fn =>
        simp only
        cases hbd : d.body with
        | none => exact absurd hbd hb
        | some body => exact ⟨_, _, rfl⟩

/-- C15: `Handle` is to return an error exactly when the declaration is marked and
`NewCallExpr` fails for the composed selector.  At the marked declaration
`// @Log()` above `func () Bar() {}`, whose receiver list is empty, in a file whose
path holds a quote, the parser rejects the selector and `NewCallExpr` fails for every
argument list, but `Handle` panics on `Recv.List[0]` before it builds the call and
returns nothing. -/
theorem Handle_panics_before_parse_error :
    emptyRecvFn.marked = true ∧
    strictEnv.parseExpr (selectorText "a\"b.go" (ctxBound emptyRecvFn)) =
      .error "missing ',' in argument list" ∧
    (∀ args, NewCallExpr strictEnv (selectorText "a\"b.go" (ctxBound emptyRecvFn)) args =
      .error "missing ',' in argument list") ∧
    (Handle strictEnv ⟨"a\"b.go", .funcDecl emptyRecvFn, AddNamedImport⟩ []).ret =
      .error .indexOutOfRange ∧
    ¬ ∃ m e, (Handle strictEnv ⟨"a\"b.go", .funcDecl emptyRecvFn, AddNamedImport⟩ []).ret =
      .ok (m, some e) := by
  refine ⟨by decide, rfl, fun _ => rfl, rfl, ?_⟩
  rintro ⟨m, e, h⟩
  have h2 : (Handle strictEnv ⟨"a\"b.go", .funcDecl emptyRecvFn, AddNamedImport⟩ []).ret =
      .error .indexOutOfRange := rfl
  rw [h2] at h
  cases h

/-- C19: `Handle` is to return on every marked declaration.  On the marked
declaration without a body, `// @Log()` above `func ext()`, it panics on the `nil`
body; on the marked declaration with an empty receiver list, `// @Log()` above
`func () Bar() {}`, it panics on `Recv.List[0]`.  The parameter names are indexed
only when there is one: a marked declaration with a body, no receiver and no
parameters is handled. -/
theorem Handle_panics_on_marked :
    externFn.marked = true ∧
    (Handle sampleEnv (sampleInfo (.funcDecl externFn)) []).ret = .error .nilDereference ∧
    emptyRecvFn.marked = true ∧
    (Handle sampleEnv (sampleInfo (.funcDecl emptyRecvFn)) []).ret = .error .indexOutOfRange ∧
    (Handle sampleEnv (sampleInfo (.funcDecl { emptyRecvFn with recv := none })) []).ret =
      .ok (true, none) :=
  ⟨by decide, rfl, by decide, rfl, rfl⟩

/-- C20, as amended: whenever `Handle` returns an error it returns `modified = false`,
and the receiver, the name and the body of the declaration are as before the call; but
the comment list has been emptied, the default names have been set in the parameter
and the result list, and the import adder has been called once. -/
theorem Handle_error_leaves_prepared {σ : Type} (env : Env) (info : Info σ) (w : σ)
    (m : Bool) (e : String) (h : (Handle env info w).ret = .ok (m, some e)) :
    m = false ∧
    ∃ d d2, info.node = .funcDecl d ∧ (Handle env info w).node = .funcDecl d2 ∧
      d2.body = d.body ∧ d2.recv = d.recv ∧ d2.name = d.name ∧
      d2.doc = some ⟨[]⟩ ∧
      d2.type.params = (getFieldListNames d.type.params).1 ∧
      d2.type.results = (getFieldListNames d.type.results).1 ∧
      (Handle env info w).world =
        (info.namedImportAdder "" "logannotation/testdata/log" w).2 := by
  cases hn : info.node with
  | other k =>
    rw [Handle_unmarked env info w (by intro d hd; rw [hn] at hd; cases hd)] at h
    simp at h
  | funcDecl d =>
    cases hm : d.marked with
    | false =>
      rw [Handle_unmarked env info w (by intro d2 hd; rw [hn] at hd; cases hd; exact hm)] at h
      simp at h
    | true =>
      have hw := Handle_marked_world env info w d hn hm
      have hdoc : ∃ g, d.doc = some g := by
        unfold FuncDecl.marked at hm
        cases hdd : d.doc with
        | none => rw [hdd] at hm; simp at hm
        | some g => exact ⟨g, rfl⟩
      obtain ⟨g, hg⟩ := hdoc
      have hM := Handle_marked env info w d hn hm
      rw [hM] at h
      cases hl : getFuncDeclName env d with
      | error fault => rw [hl] at h; simp at h
      | ok label =>
        rw [hl] at h hM
        simp only at h hM
        cases hf : env.parseExpr (selectorText info.filepath (ctxBound d)) with
        | error e0 =>
          rw [hf] at h hM
          simp only [Except.ok.injEq, Prod.mk.injEq] at h
          refine ⟨h.1.symm, d, prepared d, rfl, by rw [hM], rfl, rfl, rfl, ?_, rfl, rfl, hw⟩
          simp [prepared, hg]
        | ok fn =>
          rw [hf] at h
          cases hb : d.body with
          | none => rw [hb] at h; simp at h
          | some body => rw [hb] at h; simp at h

/-- C20, witness: `fn` of `testdata/main.go` under a file path that holds a quote. -/
theorem Handle_error_leaves_prepared_witness :
    (Handle strictEnv ⟨"a\"b.go", .funcDecl sampleFn, AddNamedImport⟩ []).ret =
      .ok (false, some "missing ',' in argument list") ∧
    ∃ d d2, Node.funcDecl sampleFn = .funcDecl d ∧
      (Handle strictEnv ⟨"a\"b.go", .funcDecl sampleFn, AddNamedImport⟩ []).node =
        .funcDecl d2 ∧
      d2.body = d.body ∧ d2.recv = d.recv ∧ d2.name = d.name ∧
      d2.doc = some ⟨[]⟩ ∧
      d2.type.params = (getFieldListNames d.type.params).1 ∧
      d2.type.results = (getFieldListNames d.type.results).1 ∧
      (Handle strictEnv ⟨"a\"b.go", .funcDecl sampleFn, AddNamedImport⟩ []).world =
        (AddNamedImport "" "logannotation/testdata/log" []).2 :=
  ⟨rfl,
    (Handle_error_leaves_prepared strictEnv ⟨"a\"b.go", .funcDecl sampleFn, AddNamedImport⟩ []
      false "missing ',' in argument list" rfl).2⟩

/-- C20, counterexample: on `fn` of `testdata/main.go`, under a file path that holds a
quote, `Handle` returns an error and `modified = false`, yet the declaration has lost
its marker comment, its results are named `_0, _1, _2`, and the import has been
registered. -/
theorem Handle_error_is_not_atomic :
    (Handle strictEnv ⟨"a\"b.go", .funcDecl sampleFn, AddNamedImport⟩ []).ret =
      .ok (false, some "missing ',' in argument list") ∧
    sampleFn.doc = some ⟨[Comment.line " @Log()"]⟩ ∧
    sampleFn.type.results = some ⟨[Field.mk [] (.ident "int"), Field.mk [] (.ident "string"),
      Field.mk [] (.ident "string")]⟩ ∧
    (∃ d2, (Handle strictEnv ⟨"a\"b.go", .funcDecl sampleFn, AddNamedImport⟩ []).node =
        .funcDecl d2 ∧
      d2.doc = some ⟨[]⟩ ∧
      d2.type.results = some ⟨[Field.mk [Ident.mk "_0"] (.ident "int"),
        Field.mk [Ident.mk "_1"] (.ident "string"),
        Field.mk [Ident.mk "_2"] (.ident "string")]⟩) ∧
    (Handle strictEnv ⟨"a\"b.go", .funcDecl sampleFn, AddNamedImport⟩ []).world =
      [ImportSpec.mk "" "logannotation/testdata/log"] ∧
    (Handle strictEnv ⟨"a\"b.go", .funcDecl sampleFn, AddNamedImport⟩ []).node ≠
      .funcDecl sampleFn := by
  refine ⟨rfl, rfl, rfl, ⟨_, rfl, rfl, rfl⟩, rfl, ?_⟩
  intro h
  have h2 : (Handle strictEnv ⟨"a\"b.go", .funcDecl sampleFn, AddNamedImport⟩ []).node =
      .funcDecl (prepared sampleFn) := rfl
  rw [h2] at h
  simp only [Node.funcDecl.injEq] at h
  have h3 : (prepared sampleFn).doc = sampleFn.doc := by rw [h]
  simp [prepared, sampleFn] at h3

/-! ## The scenario, the selector and the receiver (C16, C17, C18) -/

/-- C16, as amended: for the free function
`fn(ctx, a int, b, c string, d bool) (int, string, string)` carrying `@Log()`, the
entry call that `Handle` synthesizes has the format string
`"#fn start, params: %+v, %+v, %+v, %+v"`, with four placeholders, and prints
`a, b, c, d`: only `ctx` is left out. -/
theorem entry_call_of_fn {σ : Type} (env : Env) (info : Info σ) (w : σ) (err : Option String)
    (d : FuncDecl) (hn : info.node = .funcDecl d) (hrecv : d.recv = none)
    (hname : d.name = "fn")
    (hparams : d.type.params = some ⟨[Field.mk [Ident.mk "ctx"] (.raw "context.Context"),
      Field.mk [Ident.mk "a"] (.ident "int"),
      Field.mk [Ident.mk "b", Ident.mk "c"] (.ident "string"),
      Field.mk [Ident.mk "d"] (.ident "bool")]⟩)
    (h : (Handle env info w).ret = .ok (true, err)) :
    ∃ (d2 : FuncDecl) (fn : Expr) (rest : List Stmt),
      (Handle env info w).node = .funcDecl d2 ∧
      d2.body = some ⟨Stmt.exprStmt (.call fn
        [.ident "\"#fn start, params: %+v, %+v, %+v, %+v\"",
          .ident "a", .ident "b", .ident "c", .ident "d"]) :: rest⟩ := by
  obtain ⟨d1, label, fn, body, hn1, _, hl, _, _, _, hH⟩ := Handle_success_inv env info w err h
  rw [hn] at hn1
  cases hn1
  have hlabel : label = "fn" := by
    simp only [getFuncDeclName, hrecv, Except.ok.injEq] at hl
    rw [← hl, hname]
  have hprinted : printedParams d = ["a", "b", "c", "d"] := by
    simp only [printedParams, ctxBound, paramNames, hparams]
    decide
  refine ⟨_, fn, exitStmt env d label fn :: body.list, by rw [hH], ?_⟩
  simp only [List.cons_append, List.nil_append, entryStmt, hprinted, hlabel]
  rfl

/-- C16, witness: `fn` of `testdata/main.go`. -/
theorem entry_call_of_fn_witness :
    (Handle sampleEnv (sampleInfo (.funcDecl sampleFn)) []).ret = .ok (true, none) ∧
    ∃ (d2 : FuncDecl) (fn : Expr) (rest : List Stmt),
      (Handle sampleEnv (sampleInfo (.funcDecl sampleFn)) []).node = .funcDecl d2 ∧
      d2.body = some ⟨Stmt.exprStmt (.call fn
        [.ident "\"#fn start, params: %+v, %+v, %+v, %+v\"",
          .ident "a", .ident "b", .ident "c", .ident "d"]) :: rest⟩ :=
  ⟨rfl, entry_call_of_fn sampleEnv (sampleInfo (.funcDecl sampleFn)) [] none sampleFn
    rfl rfl rfl rfl rfl⟩

/-- C16, counterexample: for `fn` of `testdata/main.go` the arguments of the entry call
are the format with four placeholders and `a, b, c, d`, not the format
`"#fn start, params: %+v, %+v, %+v"` with `a, b, c`. -/
theorem entry_call_of_fn_is_not_three :
    (Handle sampleEnv (sampleInfo (.funcDecl sampleFn)) []).ret = .ok (true, none) ∧
    genBeforeLogArgs sampleEnv "fn" (printedParams sampleFn) =
      ["\"#fn start, params: %+v, %+v, %+v, %+v\"", "a", "b", "c", "d"] ∧
    genBeforeLogArgs sampleEnv "fn" (printedParams sampleFn) ≠
      ["\"#fn start, params: %+v, %+v, %+v\"", "a", "b", "c"] ∧
    ∃ (d2 : FuncDecl) (rest : List Stmt),
      (Handle sampleEnv (sampleInfo (.funcDecl sampleFn)) []).node = .funcDecl d2 ∧
      d2.body = some ⟨Stmt.exprStmt (.call
        (.raw "log.Logger.WithContext(ctx).WithField(\"filepath\", \"testdata/main.go\").Infof")
        [.ident "\"#fn start, params: %+v, %+v, %+v, %+v\"",
          .ident "a", .ident "b", .ident "c", .ident "d"]) :: rest⟩ :=
  ⟨rfl, by decide, by decide, _, _, rfl, rfl⟩

/-- C17: on a function declaration and a file path `p`, whenever `Handle` builds the
calls, the selector it has the parser read is `log.Logger`, then `.WithContext(ctx)`
if the first derived parameter name is `ctx`, then `.WithField("filepath", "p")` with
`p` as it is, then `.Infof`.  When `Handle` reports a modification the entry call and
the exit call have the same callee, parsed from this text; when it returns an error,
the error is the parser's for this text. -/
theorem Handle_composes_selector {σ : Type} (env : Env) (info : Info σ) (w : σ)
    (d : FuncDecl) (hn : info.node = .funcDecl d) :
    (∀ err, (Handle env info w).ret = .ok (true, err) →
      ∃ (d2 : FuncDecl) (fn : Expr) (entryArgs exitArgs : List Expr) (S : List Stmt),
        env.parseExpr ("log.Logger" ++
          (if (paramNames d).head? = some "ctx" then ".WithContext(ctx)" else "") ++
          ".WithField(\"filepath\", \"" ++ info.filepath ++ "\")" ++ ".Infof") = .ok fn ∧
        (Handle env info w).node = .funcDecl d2 ∧
        d2.body = some ⟨[Stmt.exprStmt (.call fn entryArgs),
          Stmt.deferStmt (.call (.funcLit ⟨none, none⟩
            [Stmt.exprStmt (.call fn exitArgs)]) [])] ++ S⟩) ∧
    (∀ m e, (Handle env info w).ret = .ok (m, some e) →
      env.parseExpr ("log.Logger" ++
        (if (paramNames d).head? = some "ctx" then ".WithContext(ctx)" else "") ++
        ".WithField(\"filepath\", \"" ++ info.filepath ++ "\")" ++ ".Infof") = .error e) := by
  have hsel : "log.Logger" ++
      (if (paramNames d).head? = some "ctx" then ".WithContext(ctx)" else "") ++
      ".WithField(\"filepath\", \"" ++ info.filepath ++ "\")" ++ ".Infof" =
      selectorText info.filepath (ctxBound d) := by
    unfold selectorText ctxBound
    by_cases hc : (paramNames d).head? = some "ctx" <;> simp [hc]
  rw [hsel]
  constructor
  · intro err h
    obtain ⟨d1, label, fn, body, hn1, _, _, hf, _, _, hH⟩ := Handle_success_inv env info w err h
    rw [hn] at hn1
    cases hn1
    exact ⟨_, fn, _, _, body.list, hf, by rw [hH], rfl⟩
  · intro m e h
    cases hm : d.marked with
    | false =>
      rw [Handle_unmarked env info w (by
        intro d2 hd; rw [hn] at hd; cases hd; exact hm)] at h
      simp at h
    | true =>
      rw [Handle_marked env info w d hn hm] at h
      cases hl : getFuncDeclName env d with
      | error fault => rw [hl] at h; simp at h
      | ok label =>
        rw [hl] at h
        simp only at h
        cases hf : env.parseExpr (selectorText info.filepath (ctxBound d)) with
        | error e0 =>
          rw [hf] at h
          simp only [Except.ok.injEq, Prod.mk.injEq, Option.some.injEq] at h
          rw [h.2]
        | ok fn =>
          rw [hf] at h
          cases hb : d.body with
          | none => rw [hb] at h; simp at h
          | some body => rw [hb] at h; simp at h

/-- C17, witness: `fn` of `testdata/main.go`, whose first parameter is `ctx`; the
callee of both calls is the selector of `testdata/_gen/main.go`. -/
theorem Handle_composes_selector_witness :
    (Handle sampleEnv (sampleInfo (.funcDecl sampleFn)) []).ret = .ok (true, none) ∧
    ∃ (d2 : FuncDecl) (entryArgs exitArgs : List Expr) (S : List Stmt),
      (Handle sampleEnv (sampleInfo (.funcDecl sampleFn)) []).node = .funcDecl d2 ∧
      d2.body = some ⟨[Stmt.exprStmt (.call (.raw
          "log.Logger.WithContext(ctx).WithField(\"filepath\", \"testdata/main.go\").Infof")
          entryArgs),
        Stmt.deferStmt (.call (.funcLit ⟨none, none⟩
          [Stmt.exprStmt (.call (.raw
            "log.Logger.WithContext(ctx).WithField(\"filepath\", \"testdata/main.go\").Infof")
            exitArgs)]) [])] ++ S⟩ := by
  obtain ⟨d2, fn, entryArgs, exitArgs, S, hf, hnode, hbody⟩ :=
    (Handle_composes_selector sampleEnv (sampleInfo (.funcDecl sampleFn)) [] sampleFn rfl).1
      none rfl
  have hfn : fn = .raw
      "log.Logger.WithContext(ctx).WithField(\"filepath\", \"testdata/main.go\").Infof" := by
    have h2 : sampleEnv.parseExpr ("log.Logger" ++
        (if (paramNames sampleFn).head? = some "ctx" then ".WithContext(ctx)" else "") ++
        ".WithField(\"filepath\", \"" ++ (sampleInfo (.funcDecl sampleFn)).filepath ++ "\")" ++
        ".Infof") = .ok (.raw
      "log.Logger.WithContext(ctx).WithField(\"filepath\", \"testdata/main.go\").Infof") := rfl
    rw [h2] at hf
    simp only [Except.ok.injEq] at hf
    exact hf.symm
  subst hfn
  exact ⟨rfl, d2, entryArgs, exitArgs, S, hnode, hbody⟩

theorem Unparen_parens (n : Nat) (e : TypeExpr) :
    Unparen (TypeExpr.paren^[n] e) = Unparen e := by
  induction n generalizing e with
  | zero => rfl
  | succ n ih =>
    rw [Function.iterate_succ_apply, ih]
    rfl

/-- The receiver types `getFuncDeclName` strips: a type name, or a pointer to a type
name, inside any number of parentheses. -/
theorem getFuncDeclName_outer_parens (env : Env) (d : FuncDecl) (names : List Ident)
    (T : String) (rest : List Field) (n : Nat) :
    (d.recv = some ⟨⟨names, TypeExpr.paren^[n] (.ident T)⟩ :: rest⟩ →
      getFuncDeclName env d = .ok (T ++ "." ++ d.name)) ∧
    (d.recv = some ⟨⟨names, TypeExpr.paren^[n] (.star (.ident T))⟩ :: rest⟩ →
      getFuncDeclName env d = .ok (T ++ "." ++ d.name)) := by
  constructor
  · intro h
    simp [getFuncDeclName, h, Unparen_parens, Unparen, sprintTypeExpr]
  · intro h
    simp [getFuncDeclName, h, Unparen_parens, Unparen, sprintTypeExpr]

/-- C18: `getFuncDeclName` is to return `T.MethodName` for a receiver type that is `T`
inside any combination of parentheses and a pointer marker.  For the method
`func (f *(Foo)) Bar()` the parentheses are inside the pointer: what is left after
the pointer marker is the parenthesized `(Foo)`, which is no identifier, and the label
is the dump `fmt` prints for that node followed by `.Bar`, not `Foo.Bar`. -/
theorem getFuncDeclName_star_paren :
    parenStarMethod.recv =
      some ⟨[Field.mk [Ident.mk "f"] (.star (.paren (.ident "Foo")))]⟩ ∧
    (∀ env : Env, getFuncDeclName env parenStarMethod =
      .ok (env.dump (.paren (.ident "Foo")) ++ "." ++ "Bar")) ∧
    getFuncDeclName noPosEnv parenStarMethod = .ok "&\x7b0 Foo 0\x7d.Bar" ∧
    getFuncDeclName noPosEnv parenStarMethod ≠ .ok "Foo.Bar" := by
  refine ⟨rfl, ?_, rfl, ?_⟩
  · intro env
    simp [getFuncDeclName, parenStarMethod, Unparen, sprintTypeExpr]
  have h : getFuncDeclName noPosEnv parenStarMethod = .ok "&\x7b0 Foo 0\x7d.Bar" := rfl
  rw [h]
  intro h2
  simp only [Except.ok.injEq] at h2
  exact absurd h2 (by decide)

end LogAnnot
